import Mathlib

/-!
Verification development for `github-skill-forge` (`scripts/forge.py`).

The Python source is shallowly embedded: pure computations become Lean
functions over `String` / `List`; filesystem and subprocess effects are
recorded as explicit `Event` values; the network is an oracle supplied as a
function argument (a response per request URL for the API client, a finite
path → listing association for the online scanner, a per-attempt outcome for
the clone subprocess).  Python `dict`s are insertion-ordered association
lists.  Machine-level details that the program never observes (terminal
colours are modelled for a non-tty stdout, where `Colors.supports_color()`
is false; `\w` character classes are modelled over ASCII) are noted at the
definitions concerned.

String primitives that the embedding needs are re-implemented over the
underlying character lists so that every definition evaluates by kernel
reduction.
-/

/-! ## String primitives -/

/-- `pre` is a prefix of the character list. -/
def charsPre : List Char → List Char → Bool
  | [], _ => true
  | _ :: _, [] => false
  | p :: ps, c :: cs => p = c && charsPre ps cs

/-- Remainder of a character list after removing the prefix `pat`, if `pat`
is a prefix. -/
def stripPre : List Char → List Char → Option (List Char)
  | [], l => some l
  | _ :: _, [] => none
  | p :: ps, c :: cs => if p = c then stripPre ps cs else none

/-- `pat` occurs as a contiguous sublist (Python `in` on strings). -/
def charsSub (pat : List Char) : List Char → Bool
  | [] => charsPre pat []
  | c :: cs => charsPre pat (c :: cs) || charsSub pat cs

/-- Python `pat in s` (substring containment). -/
def strContains (s pat : String) : Bool := charsSub pat.data s.data

/-- Python `s.startswith(pre)`. -/
def strStarts (s pre : String) : Bool := charsPre pre.data s.data

/-- Python `s.endswith(suf)`. -/
def strEnds (s suf : String) : Bool := charsPre suf.data.reverse s.data.reverse

/-- Python `s.lower()` (ASCII case folding). -/
def strLower (s : String) : String := ⟨s.data.map Char.toLower⟩

/-- Python `s.lstrip(c)` for a single strip character. -/
def pyLstrip (c : Char) (s : String) : String := ⟨s.data.dropWhile (· = c)⟩

/-- Python `s.rstrip(c)` for a single strip character. -/
def pyRstrip (c : Char) (s : String) : String :=
  ⟨(s.data.reverse.dropWhile (· = c)).reverse⟩

/-- Helper for `strSplitOnChar`: accumulates the current piece reversed. -/
def splitOnCharAux (sep : Char) : List Char → List Char → List (List Char)
  | [], acc => [acc.reverse]
  | c :: rest, acc =>
    if c = sep then acc.reverse :: splitOnCharAux sep rest []
    else splitOnCharAux sep rest (c :: acc)

/-- Python `s.split(sep)` for a one-character separator. -/
def strSplitOnChar (sep : Char) (s : String) : List String :=
  (splitOnCharAux sep s.data []).map (fun l => ⟨l⟩)

/-- Replacement loop with list-length fuel; the fuel is always sufficient
because each step consumes at least one character whenever `pat` is
non-empty (every occurrence in this development uses a non-empty pattern). -/
def replaceFuel (pat sub : List Char) : Nat → List Char → List Char
  | _, [] => []
  | 0, l => l
  | f + 1, c :: cs =>
    match stripPre pat (c :: cs) with
    | some rest => sub ++ replaceFuel pat sub f rest
    | none => c :: replaceFuel pat sub f cs

/-- Python `s.replace(pat, sub)` (all occurrences, non-empty `pat`). -/
def strReplace (s pat sub : String) : String :=
  ⟨replaceFuel pat.data sub.data s.data.length s.data⟩

/-- Python `"\n".join(pieces)`. -/
def strJoinNl (pieces : List String) : String := String.intercalate "\n" pieces

/-- Python `s.splitlines()` restricted to `\n` newlines: a trailing newline
does not produce a final empty piece, and the empty string has no lines. -/
def pySplitlines (s : String) : List String :=
  if s.data = [] then []
  else
    let l := strSplitOnChar '\n' s
    if strEnds s "\n" then l.dropLast else l

/-- `"\n".join(code.splitlines()[:100])` — the 100-line preview used for
entry files and core code. -/
def first100Lines (code : String) : String :=
  strJoinNl ((pySplitlines code).take 100)

/-- Strip a trailing `.git` as the source does (`url[:-4]`). -/
def pyStripGit (s : String) : String :=
  if strEnds s ".git" then s.dropRight 4 else s

/-- Digit grouping helper: groups a least-significant-first digit list into
threes separated by commas. -/
def commaGroupGo : List Char → List Char
  | a :: b :: c :: d :: rest => a :: b :: c :: ',' :: commaGroupGo (d :: rest)
  | l => l

/-- Python `f"{n:,}"` for a natural number: decimal digits grouped in threes
by commas from the right. -/
def commaSep (n : Nat) : String :=
  ⟨(commaGroupGo (toString n).data.reverse).reverse⟩

/-- A single apostrophe, used when quoting Python exception text. -/
def apos : String := ⟨[Char.ofNat 39]⟩

/-- ASCII approximation of the `\w` character class together with the
literal `.` and `-` of the `[\w.-]` classes in the source's regexes. -/
def wordDotDash (c : Char) : Bool :=
  c.isAlphanum || c = '_' || c = '.' || c = '-'

/-- A non-empty run of `[\w.-]` characters. -/
def segOk (s : String) : Bool := !s.data.isEmpty && s.data.all wordDotDash

/-! ## Terminal colours

`create_context_bundle` and `create_online_context_bundle` embed the ANSI
codes directly in f-strings, so those appear in every document.
`Colors.colorize` (used only by `get_file_tree`) checks
`Colors.supports_color()`, which is false for a non-tty stdout — the setting
modelled here — and then returns its text unchanged. -/

def cHEADER : String := "\x1b[35m"
def cRESET : String := "\x1b[0m"
def cYELLOW : String := "\x1b[33m"
def cBLUE : String := "\x1b[34m"

/-- `Colors.colorize` for a non-tty stdout: the text is returned unchanged. -/
def colorize (text _color : String) : String := text

/-! ## Configuration (`ForgeConfig`) -/

/-- The fields of `ForgeConfig` consumed by the acquisition core, with the
source's default values. -/
structure ForgeConfig where
  clone_depth : Nat := 1
  max_retries : Nat := 3
  timeout : Nat := 60
  clone_mirrors : List String :=
    ["https://github.com", "https://kkgithub.com", "https://gitclone.com/github.com"]
  proxy_enabled : Bool := true
  skip_patterns : List String :=
    [".git", ".gitignore", ".github", ".gitattributes", "node_modules",
     "__pycache__", "*.pyc", ".venv", "venv", "dist", "build", ".tox",
     ".mypy_cache", ".pytest_cache", "coverage", ".idea", ".vscode",
     "*.swp", "*.swo", "~"]
  verbose : Bool := false
  quiet : Bool := false
  dry_run : Bool := false
  force : Bool := false
  max_file_count : Nat := 100
  max_doc_size : Nat := 20000
  min_stars : Nat := 100
  no_safety_check : Bool := false
  api_mirrors : List String :=
    ["https://api.github.com", "https://gh-api.vps.sc", "https://api.gitmirror.com",
     "https://ghproxy.net/https://api.github.com", "https://gh.api.99988866.xyz"]
  current_api_base : String := "https://api.github.com"
deriving Repr

/-- `ForgeConfig()` — all defaults. -/
def forgeConfigDefault : ForgeConfig := {}

/-! ## Observable effects

Filesystem and subprocess effects are recorded as events carrying the
operation and the path (file contents of the auxiliary metadata files are
produced by the excluded template collaborator and are not inspected by any
property below; the context-bundle document text is modelled separately by
the pure document builders). -/

inductive Event where
  /-- `Path.mkdir(parents=True, exist_ok=True)` -/
  | mkdirP (path : String)
  /-- `open(path, "w").write(...)` — one whole-document write -/
  | writeFile (path : String)
  /-- `Path.touch()` -/
  | touchFile (path : String)
  /-- `shutil.rmtree(path)` -/
  | rmtree (path : String)
  /-- the `git clone --depth N <cloneUrl> <targetDir>` subprocess -/
  | gitClone (cloneUrl targetDir : String)
  /-- `time.sleep(seconds)` -/
  | sleep (seconds : Nat)
deriving DecidableEq, Repr

/-- Does the event create or overwrite a file? -/
def Event.isWrite : Event → Bool
  | .writeFile _ => true
  | .touchFile _ => true
  | _ => false

/-- Is the event a clone-subprocess invocation? -/
def Event.isClone : Event → Bool
  | .gitClone _ _ => true
  | _ => false

/-- The filesystem is modelled as the list of existing paths; descendants
are stored explicitly, so `rmtree` removes the path and everything below. -/
def fsRemoveTree (fs : List String) (path : String) : List String :=
  fs.filter (fun q => !(q = path || strStarts q (path ++ "/")))

/-- Does `path` have any stored descendant (`any(path.iterdir())`)? -/
def fsHasChild (fs : List String) (path : String) : Bool :=
  fs.any (fun q => strStarts q (path ++ "/"))

/-! ## URL utilities (`validate_url`, `get_repo_name`, `get_repo_info`) -/

/-- One of the two HTTPS patterns of `validate_url`:
`^https://github\.com/[\w.-]+/[\w.-]+(\.git)?/?$`. -/
def httpsUrlPattern (requireGit : Bool) (url : String) : Bool :=
  strStarts url "https://github.com/" &&
    (let rest := url.drop "https://github.com/".length
     let rest := if strEnds rest "/" then rest.dropRight 1 else rest
     match strSplitOnChar '/' rest with
     | [a, b] =>
       segOk a &&
         (if requireGit then strEnds b ".git" && segOk (b.dropRight 4) else segOk b)
     | _ => false)

/-- One of the two SSH patterns of `validate_url`:
`^git@github\.com:[\w.-]+/[\w.-]+(\.git)?/?$`. -/
def sshUrlPattern (requireGit : Bool) (url : String) : Bool :=
  strStarts url "git@github.com:" &&
    (let rest := url.drop "git@github.com:".length
     let rest := if strEnds rest "/" then rest.dropRight 1 else rest
     match strSplitOnChar '/' rest with
     | [a, b] =>
       segOk a &&
         (if requireGit then strEnds b ".git" && segOk (b.dropRight 4) else segOk b)
     | _ => false)

/-- `validate_url`: any of the four accepted GitHub URL shapes. -/
def validate_url (url : String) : Bool :=
  httpsUrlPattern false url || httpsUrlPattern true url ||
    sshUrlPattern true url || sshUrlPattern false url

/-- `get_repo_name`: strip `.git`, take the last `/`-segment, keep only
`[a-zA-Z0-9-_]` characters, defaulting to `unknown-skill`. -/
def get_repo_name (url : String) : String :=
  let u := pyStripGit url
  let nm := (strSplitOnChar '/' u).getLastD ""
  let nm : String := ⟨nm.data.filter (fun c => c.isAlphanum || c = '-' || c = '_')⟩
  if nm.data.isEmpty then "unknown-skill" else nm

/-- The SSH regex of `get_repo_info`:
`git@github\.com:([\w.-]+)/([\w.-]+)` matched at the start with the tail
ignored (`re.match` does not anchor the end). -/
def sshRepoMatch (u : String) : Option (String × String) :=
  match stripPre "git@github.com:".data u.data with
  | none => none
  | some rest =>
    let a := rest.takeWhile wordDotDash
    let rest2 := rest.dropWhile wordDotDash
    if a.isEmpty then none
    else
      match rest2 with
      | '/' :: rest3 =>
        let b := rest3.takeWhile wordDotDash
        if b.isEmpty then none else some (⟨a⟩, ⟨b⟩)
      | _ => none

/-- `get_repo_info`: owner and repo from an URL, or the `ForgeError`
message. -/
def get_repo_info (url : String) : Except String (String × String) :=
  let u := pyStripGit (pyRstrip '/' url)
  match (if strStarts u "git@" then sshRepoMatch u else none) with
  | some pr => .ok pr
  | none =>
    let parts := strSplitOnChar '/' u
    if parts.length ≥ 2 then
      .ok (parts.getD (parts.length - 2) "", parts.getLastD "")
    else .error ("无法从 URL 提取仓库信息: " ++ u)

/-! ## Endpoint failover client (`make_api_request`) -/

/-- The oracle's reply for one request URL. -/
inductive ApiReply (α : Type) where
  /-- 200 with a parsed JSON body -/
  | ok (value : α)
  /-- `urllib.error.HTTPError` with this status code -/
  | httpError (code : Nat)
  /-- any other exception (transport error, JSON decode error, ...) -/
  | failure
deriving Repr, DecidableEq

/-- Did the endpoint answer successfully? -/
def ApiReply.isOk {α : Type} : ApiReply α → Bool
  | .ok _ => true
  | _ => false

/-- `f"{base_url.rstrip('/')}/{url_path.lstrip('/')}"`. -/
def apiUrlOf (base path : String) : String :=
  pyRstrip '/' base ++ "/" ++ pyLstrip '/' path

/-- The `ForgeError` message raised when every mirror failed. -/
def endpointExhaustedMsg (path : String) : String :=
  "所有 API 镜像均无法访问: " ++ path ++ "。请检查网络或配置代理。"

/-- The mirror loop of `make_api_request`.  Every non-success outcome —
404, 403 on a `ghproxy` base, any other HTTP error (logged if verbose) or
any other exception — continues with the next base; the first success
returns.  The result also records, for the properties below, the list of
bases actually contacted, and the succeeding base that the source stores
into `config.current_api_base`. -/
def apiRequestLoop {α : Type} (path : String) (resp : String → ApiReply α) :
    List String → List String × Except String (α × String)
  | [] => ([], .error (endpointExhaustedMsg path))
  | base :: rest =>
    match resp (apiUrlOf base path) with
    | .ok v => ([base], .ok (v, base))
    | _ =>
      -- 404 → resource absent here, continue; 403 on a `ghproxy` base →
      -- silently skipped; any other HTTP error → logged if verbose; any
      -- other exception → logged if verbose.  Every one of these source
      -- branches continues with the next base.
      let (c, r) := apiRequestLoop path resp rest
      (base :: c, r)

/-- `make_api_request(url_path, config)` with the network as an oracle:
first component is the list of endpoints contacted in order, second the
parsed result paired with the new `config.current_api_base`, or the
`ForgeError` message after exhaustion. -/
def make_api_request {α : Type} (path : String) (cfg : ForgeConfig)
    (resp : String → ApiReply α) : List String × Except String (α × String) :=
  apiRequestLoop path resp cfg.api_mirrors

/-! ## Repository safety gate (`check_repository_safety`) -/

/-- The fields of the repository-metadata JSON that the gate reads
(`data.get(...)` with its defaults folded in). -/
structure RepoMeta where
  stargazers_count : Nat := 0
  forks_count : Nat := 0
  license_spdx : Option String := none
  description : String := ""
deriving Repr

/-- The owner/repo parse at the top of `check_repository_safety`
(`url.rstrip("/")`, drop `.git`, split on `/`). -/
def safetyUrlParts (url : String) : List String :=
  strSplitOnChar '/' (pyStripGit (pyRstrip '/' url))

/-- The API path `repos/{owner}/{repo}` requested by the gate. -/
def safety_api_path (url : String) : String :=
  let parts := safetyUrlParts url
  "repos/" ++ parts.getD (parts.length - 2) "" ++ "/" ++ parts.getLastD ""

/-- `check_repository_safety(url, config)`: `(is_safe, info, description)`.
Every exception (an URL too short for `parts[-2]`, or `make_api_request`
exhausting its mirrors) is caught and reported as unsafe. -/
def check_repository_safety (url : String) (cfg : ForgeConfig)
    (resp : String → ApiReply RepoMeta) : Bool × String × String :=
  let parts := safetyUrlParts url
  if parts.length < 2 then
    (false, "安全检查失败: string index out of range", "")
  else
    match (make_api_request (safety_api_path url) cfg resp).2 with
    | .error e => (false, "安全检查失败: " ++ e, "")
    | .ok (m, _) =>
      let licenseId := match m.license_spdx with | some l => l | none => "未知"
      let info := "Stars: " ++ commaSep m.stargazers_count ++ "; Forks: " ++
        commaSep m.forks_count ++ "; 许可证: " ++ licenseId
      if m.stargazers_count < cfg.min_stars then
        (false,
         "仓库 Stars (" ++ toString m.stargazers_count ++ ") 低于设定的金标阈值 (" ++
           toString cfg.min_stars ++ ")。详情: " ++ info,
         m.description)
      else (true, info, m.description)

/-! ## Online BFS scanner (`online_repo_scanner`)

The forge's contents API is abstracted as a finite association from a
directory path to its listing: `fetch_github_contents` returning a parsed
list becomes a successful lookup, and every failure mode (HTTP error on all
mirrors, non-list JSON) becomes a missed lookup, which the source's
per-path `except` clause turns into a skip.  `download_file_content` never
raises (it returns an error string on failure), so it is a total function
from the entry's `download_url` to text. -/

/-- One entry of a directory listing: `{name, type, download_url}`. -/
structure Item where
  name : String
  ty : String
  download_url : String
deriving Repr, DecidableEq

/-- The remote tree: directory path → listing, plus the downloader. -/
abbrev Dirs := List (String × List Item)

structure ScanEnv where
  dirs : Dirs
  contents : String → String

/-- First-match association lookup (the fetch). -/
def lookupA : Dirs → String → Option (List Item)
  | [], _ => none
  | (k, v) :: rest, p => if k = p then some v else lookupA rest p

/-- `f"{current_path}/{item['name']}".lstrip("/")`. -/
def relPathOf (cur name : String) : String :=
  pyLstrip '/' (cur ++ "/" ++ name)

/-- The `results` dictionary of `online_repo_scanner`. -/
structure ScanResults where
  tree : List String := []
  key_docs : List (String × String) := []
  dependencies : List (String × String) := []
  core_code : List (String × String) := []
  entry_files : List (String × String) := []
  language : String := "Unknown"
deriving Repr, DecidableEq, Inhabited

/-- Python `dict[k] = v`: replace in place, else append. -/
def dictSet (l : List (String × String)) (k v : String) : List (String × String) :=
  match l with
  | [] => [(k, v)]
  | (k', v') :: rest => if k' = k then (k, v) :: rest else (k', v') :: dictSet rest k v

/-- Association-list lookup (Python `d.get(k)` / `k in d`). -/
def alGet {α : Type} (l : List (String × α)) (k : String) : Option α :=
  match l with
  | [] => none
  | (k', v) :: rest => if k' = k then some v else alGet rest k

/-- `any(re.match(p, name, re.I) for p in ["README.*", "LICENSE.*",
"CONTRIBUTING.*"])`: a case-insensitive prefix test. -/
def isDocName (name : String) : Bool :=
  strStarts (strLower name) "readme" || strStarts (strLower name) "license" ||
    strStarts (strLower name) "contributing"

/-- The `dep_map` dependency-manifest table, filename → language. -/
def dep_map : List (String × String) :=
  [("requirements.txt", "Python"), ("package.json", "Node.js"),
   ("go.mod", "Go"), ("Cargo.toml", "Rust"), ("pyproject.toml", "Python"),
   ("setup.py", "Python"), ("pom.xml", "Java"), ("Gemfile", "Ruby")]

/-- The scanner's `entry_points` filename set (membership is tested against
`item["name"].lower()`, exactly as in the source — so the mixed-case Java
entries can never match). -/
def entry_points_online : List String :=
  ["main.py", "__main__.py", "app.py", "cli.py", "core.py",
   "index.js", "main.js", "app.js", "server.js",
   "index.ts", "main.ts", "app.ts",
   "main.go", "lib.rs", "main.rs", "mod.rs",
   "App.java", "Main.java",
   "application.rb", "main.rb"]

/-- The recognised source-code extensions of the scanner. -/
def code_extensions : List String :=
  [".py", ".js", ".ts", ".go", ".rs", ".java", ".c", ".cpp", ".h", ".cs",
   ".rb", ".php", ".sh"]

/-- `item["name"].endswith((...))` over `code_extensions`. -/
def hasCodeExt (name : String) : Bool :=
  code_extensions.any (fun e => strEnds name e)

/-- `any(x in rel_path.lower() for x in [...])` — the test/doc/example
filter applied to files. -/
def pathFiltered (rel : String) : Bool :=
  ["/tests/", "/test/", "/docs/", "/examples/", "/site-packages/"].any
    (fun x => strContains (strLower rel) x)

/-- The `interest_dirs` set for a repository name. -/
def interest_dirs (repo : String) : List String :=
  ["src", "lib", "app", "bin", "include", "pkg", "internal", "cmd",
   strReplace (strLower repo) "-" "_", strLower repo]

/-- Step 1 of the per-item body: key documents (type `file`, documentation
name pattern, fewer than 5 collected). -/
def scanStepDocs (env : ScanEnv) (rel : String) (it : Item) (r : ScanResults) :
    ScanResults :=
  if it.ty = "file" && isDocName it.name then
    if r.key_docs.length < 5 then
      { r with key_docs := dictSet r.key_docs rel (env.contents it.download_url) }
    else r
  else r

/-- The second half of step 2: download the manifest once per distinct
filename (`if item["name"] not in results["dependencies"]`). -/
def depsUpdate (env : ScanEnv) (it : Item) (r : ScanResults) : ScanResults :=
  if (alGet r.dependencies it.name).isNone then
    { r with dependencies := r.dependencies ++ [(it.name, env.contents it.download_url)] }
  else r

/-- Step 2: dependency manifests — sets the language on the first match and
downloads each distinct manifest filename once. -/
def scanStepDeps (env : ScanEnv) (it : Item) (r : ScanResults) : ScanResults :=
  match alGet dep_map it.name with
  | none => r
  | some lang =>
    depsUpdate env it (if r.language = "Unknown" then { r with language := lang } else r)

/-- Step 3: entry files and core code for type `file`, unless the path hits
the test/doc/example filter (whose `continue` skips the rest of the item's
body). -/
def scanStepCode (env : ScanEnv) (rel : String) (depth : Nat) (it : Item)
    (r : ScanResults) : ScanResults :=
  if it.ty = "file" then
    if pathFiltered rel then r
    else if entry_points_online.contains (strLower it.name) then
      if r.entry_files.length < 5 then
        { r with entry_files :=
            dictSet r.entry_files rel (first100Lines (env.contents it.download_url)) }
      else r
    else if hasCodeExt it.name && depth > 0 then
      if r.core_code.length < 10 then
        { r with core_code :=
            dictSet r.core_code rel (first100Lines (env.contents it.download_url)) }
      else r
    else r
  else r

/-- Step 4: the recursion decision — enqueue `(rel_path, depth+1)` for an
interesting directory (or any directory at the root). -/
def scanStepEnq (repo rel : String) (depth maxDepth : Nat) (it : Item) :
    Option (String × Nat) :=
  if it.ty = "dir" && depth < maxDepth &&
      ((interest_dirs repo).contains (strLower it.name) || depth = 0) then
    some (rel, depth + 1)
  else none

/-- The whole `for item in items` body for one item: returns the updated
results and the enqueued pair, if any. -/
def procItem (env : ScanEnv) (repo cur : String) (depth maxDepth : Nat)
    (it : Item) (r : ScanResults) : ScanResults × Option (String × Nat) :=
  let rel := relPathOf cur it.name
  let r := { r with tree := r.tree ++ ["[" ++ it.ty ++ "] " ++ rel] }
  let r := scanStepDocs env rel it r
  let r := scanStepDeps env it r
  let r := scanStepCode env rel depth it r
  (r, scanStepEnq repo rel depth maxDepth it)

/-- The `for item in items` loop. -/
def procItems (env : ScanEnv) (repo cur : String) (depth maxDepth : Nat) :
    List Item → ScanResults → ScanResults × List (String × Nat)
  | [], r => (r, [])
  | it :: rest, r =>
    let (r1, enq) := procItem env repo cur depth maxDepth it r
    let (r2, q) := procItems env repo cur depth maxDepth rest r1
    (r2, enq.toList ++ q)

/-- All paths the scan can ever mention: the root plus every listed entry's
relative path. -/
def allPaths (dirs : Dirs) : List String :=
  "" :: dirs.flatMap (fun pr => pr.2.map (fun it => relPathOf pr.1 it.name))

/-- Total number of listed entries across the remote tree. -/
def totalItems (dirs : Dirs) : Nat :=
  (dirs.map (fun pr => pr.2.length)).sum

/-- Fuel sufficient for the whole walk (proved below): one unit per queue
element ever dequeued. -/
def scanFuel (dirs : Dirs) : Nat :=
  (allPaths dirs).length * (1 + totalItems dirs) + 1

/-- The `while scan_queue` loop.  `visited` is `scanned_paths`; `enqLog`
additionally records every pair ever appended to the queue, so that the
depth-bound property can be stated.  `none` is returned only on fuel
exhaustion, which `scanLoop_isSome` below proves unreachable from
`scanFuel`. -/
def scanLoop (env : ScanEnv) (repo : String) (maxDepth : Nat) :
    Nat → List (String × Nat) → List String → List (String × Nat) →
    ScanResults → Option (ScanResults × List String × List (String × Nat))
  | _, [], visited, enqLog, r => some (r, visited, enqLog)
  | 0, _ :: _, _, _, _ => none
  | fuel + 1, (p, d) :: rest, visited, enqLog, r =>
    if visited.contains p || d > maxDepth then
      scanLoop env repo maxDepth fuel rest visited enqLog r
    else
      let visited := p :: visited
      match lookupA env.dirs p with
      | none => -- fetch failed or returned a non-list: skip this path
        scanLoop env repo maxDepth fuel rest visited enqLog r
      | some items =>
        let (r1, newQ) := procItems env repo p d maxDepth items r
        scanLoop env repo maxDepth fuel (rest ++ newQ) visited (enqLog ++ newQ) r1

/-- The scanner body after URL parsing, generic in the depth bound (the
source fixes `max_depth = 2`), seeded with `("", 0)`. -/
def onlineRepoScannerD (maxDepth : Nat) (env : ScanEnv) (repo : String) :
    Option (ScanResults × List String × List (String × Nat)) :=
  scanLoop env repo maxDepth (scanFuel env.dirs) [("", 0)] [] [] {}

/-- `online_repo_scanner(url, config)`: parse owner/repo (raising
`ForgeError` on an unparseable URL), then walk with `max_depth = 2`. -/
def scanUrlParts (url : String) : List String :=
  strSplitOnChar '/' (pyStripGit (pyRstrip '/' url))

def online_repo_scanner (env : ScanEnv) (url : String) :
    Except String (Option ScanResults) :=
  if (scanUrlParts url).length < 2 then
    .error ("无法解析 URL 中的 owner 和 repo: " ++ pyStripGit (pyRstrip '/' url))
  else
    .ok ((onlineRepoScannerD 2 env ((scanUrlParts url).getLastD "")).map (fun pr => pr.1))

/-! ## Shallow clone fallback (`clone_repository`)

The external `git clone` subprocess is an oracle `ok : attempt → cloneUrl →
Bool` (exit code 0 ⟺ `true`; a timeout or exception counts as a failed
attempt, as the source catches both and continues).  The dead `git
--version` probe (both of its branches assign the same command string) has
no observable effect and is not recorded. -/

/-- The `owner/repo` path extracted from the URL (empty when the URL has
fewer than two `/`-separated parts). -/
def cloneRepoPath (url : String) : String :=
  let parts := strSplitOnChar '/' (pyRstrip '/' url)
  if parts.length ≥ 2 then
    pyStripGit (parts.getD (parts.length - 2) "" ++ "/" ++ parts.getLastD "")
  else ""

/-- The candidate clone URLs: one per configured mirror, and the original
URL appended last — but only when it is not already among the
mirror-derived URLs (`if url not in clone_urls`). -/
def clone_candidate_urls (url : String) (cfg : ForgeConfig) : List String :=
  let repo_path := cloneRepoPath url
  let base := cfg.clone_mirrors.map (fun m =>
    if repo_path ≠ "" then pyRstrip '/' m ++ "/" ++ repo_path
    else strReplace url "github.com"
      (strReplace (strReplace m "https://" "") "http://" ""))
  if base.contains url then base else base ++ [url]

/-- One retry round: try every candidate in order, stopping at the first
success.  Every try is one clone-subprocess invocation. -/
def cloneRound (ok : Nat → String → Bool) (attempt : Nat) (target : String) :
    List String → Bool × List Event
  | [] => (false, [])
  | u :: rest =>
    if ok attempt u then (true, [Event.gitClone u target])
    else
      let (b, evs) := cloneRound ok attempt target rest
      (b, Event.gitClone u target :: evs)

/-- The `for attempt in range(max_retries)` loop over the remaining
attempt indices: between rounds (and only between rounds, i.e. when
`attempt < max_retries - 1`, meaning further attempts remain) sleep
`(attempt + 1) * 2` seconds.  A last attempt returns its round outcome
directly (whether that round succeeded or not). -/
def cloneAttempts (urls : List String) (target : String) (ok : Nat → String → Bool) :
    List Nat → Bool × List Event
  | [] => (false, [])
  | [a] => cloneRound ok a target urls
  | a :: a2 :: rest =>
    let (b, evs) := cloneRound ok a target urls
    if b then (true, evs)
    else
      let (b2, evs2) := cloneAttempts urls target ok (a2 :: rest)
      (b2, evs ++ Event.sleep ((a + 1) * 2) :: evs2)

/-- `clone_repository(url, target_dir, config)`: returns the boolean
outcome, the filesystem after the call, and the recorded events.  On
success git materialises the working tree; only its existence (the target
and its `.git` folder) matters to later existence checks, so those two
paths are added. -/
def clone_repository (url target : String) (cfg : ForgeConfig)
    (fs : List String) (ok : Nat → String → Bool) :
    Bool × List String × List Event :=
  if fs.contains target then
    if cfg.force then
      let fs1 := fsRemoveTree fs target
      let (b, evs) :=
        cloneAttempts (clone_candidate_urls url cfg) target ok (List.range cfg.max_retries)
      (b, (if b then (target ++ "/.git") :: target :: fs1 else fs1),
        Event.rmtree target :: evs)
    else (false, fs, [])
  else
    let (b, evs) :=
      cloneAttempts (clone_candidate_urls url cfg) target ok (List.range cfg.max_retries)
    (b, (if b then (target ++ "/.git") :: target :: fs else fs), evs)

/-! ## Local filesystem scanner
(`get_file_tree`, `detect_programming_language`, `create_context_bundle`)

A cloned working tree is a named root directory over nested file nodes.
The recursive walks carry node-count fuel (`treeFuel`), which strictly
exceeds the depth of any finite tree, so the fuel never runs out; this
keeps every collector a structural recursion that evaluates by kernel
reduction. -/

mutual
/-- A node of a cloned working tree.  The children of a directory are a
`NodeList` (a mutual copy of `List FileNode`) so that sizes and walks are
mutual structural recursions that evaluate by kernel reduction. -/
inductive FileNode where
  | file (name content : String)
  | dir (name : String) (children : NodeList)
deriving Repr
inductive NodeList where
  | nil
  | cons (hd : FileNode) (tl : NodeList)
deriving Repr
end

/-- View a `NodeList` as a plain list. -/
def NodeList.toList : NodeList → List FileNode
  | .nil => []
  | .cons h t => h :: NodeList.toList t

/-- Build a `NodeList` from a plain list (for concrete trees). -/
def NodeList.ofList : List FileNode → NodeList
  | [] => .nil
  | h :: t => .cons h (NodeList.ofList t)

mutual
/-- Number of nodes below (and including) a node — recursion fuel. -/
def nodeSize : FileNode → Nat
  | .file _ _ => 1
  | .dir _ ch => 1 + nlistSize ch
def nlistSize : NodeList → Nat
  | .nil => 0
  | .cons h t => nodeSize h + nlistSize t
end

structure LocalTree where
  rootName : String
  children : List FileNode
deriving Repr

/-- Walk fuel: strictly more than the nesting depth of the tree. -/
def treeFuel (t : LocalTree) : Nat := (t.children.map nodeSize).sum + 1

/-- The file names of a directory listing, in order. -/
def filesOf (ch : List FileNode) : List String :=
  ch.filterMap (fun n => match n with | .file f _ => some f | _ => none)

/-- The subdirectories of a directory listing, in order. -/
def subdirsOf (ch : List FileNode) : List (String × List FileNode) :=
  ch.filterMap (fun n => match n with | .dir d c => some (d, c.toList) | _ => none)

/-- `dirs[:] = [d for d in dirs if not d.startswith(".")]` — the hidden
directories pruned from the `os.walk` traversal of `get_file_tree`. -/
def visibleSubdirs (ch : List FileNode) : List (String × List FileNode) :=
  (subdirsOf ch).filter (fun pr => !strStarts pr.1 ".")

/-- `os.walk` (top-down, hidden directories pruned): the walked directories
with their level and file listing, in traversal order. -/
def osWalkF : Nat → Nat → String → List FileNode → List (Nat × String × List String)
  | 0, _, _, _ => []
  | fuel + 1, lvl, nm, ch =>
    (lvl, nm, filesOf ch) ::
      (visibleSubdirs ch).flatMap (fun pr => osWalkF fuel (lvl + 1) pr.1 pr.2)

def os_walk (t : LocalTree) : List (Nat × String × List String) :=
  osWalkF (treeFuel t) 0 t.rootName t.children

/-- The `should_skip` closure of `get_file_tree`: trailing-wildcard /
dot-prefix / exact-name matching against the skip patterns. -/
def should_skip (skip : List String) (name : String) : Bool :=
  skip.any (fun pattern =>
    if strStarts pattern "*" then strEnds name (pattern.drop 1)
    else if strStarts pattern "." then strStarts name pattern
    else name = pattern)

/-- `" " * n`. -/
def spaces (n : Nat) : String := ⟨List.replicate n ' '⟩

/-- The file loop of one walked directory: appends each non-skipped file
line, counting; on exceeding the limit the truncation marker is appended
and the whole tree rendering stops. -/
def treeFilesGo (skip : List String) (limit : Nat) (subindent : String) :
    List String → Nat → List String × Nat × Bool
  | [], count => ([], count, false)
  | f :: rest, count =>
    if should_skip skip f then treeFilesGo skip limit subindent rest count
    else
      let count := count + 1
      if count > limit then
        ([subindent ++ f, subindent ++ colorize "... (truncated)" cYELLOW], count, true)
      else
        let (ls, c2, stopped) := treeFilesGo skip limit subindent rest count
        ((subindent ++ f) :: ls, c2, stopped)

/-- The directory loop of `get_file_tree`. -/
def treeDirsGo (skip : List String) (limit : Nat) :
    List (Nat × String × List String) → Nat → List String
  | [], _ => []
  | (lvl, dnm, files) :: rest, count =>
    if should_skip skip dnm then treeDirsGo skip limit rest count
    else
      let line := spaces (4 * lvl) ++ colorize dnm cBLUE ++ "/"
      let (fls, c2, stopped) := treeFilesGo skip limit (spaces (4 * (lvl + 1))) files count
      if stopped then line :: fls
      else line :: fls ++ treeDirsGo skip limit rest c2

/-- `get_file_tree(start_path, limit, skip_patterns)`. -/
def get_file_tree (t : LocalTree) (limit : Nat) (skip : List String) : String :=
  strJoinNl (treeDirsGo skip limit (os_walk t) 0)

/-- The `lang_extensions` table of `detect_programming_language`. -/
def lang_extensions : List (String × String) :=
  [(".py", "Python"), (".js", "JavaScript"), (".ts", "TypeScript"),
   (".go", "Go"), (".rs", "Rust"), (".java", "Java"), (".c", "C"),
   (".cpp", "C++"), (".cs", "C#"), (".rb", "Ruby"), (".php", "PHP"),
   (".swift", "Swift"), (".kt", "Kotlin"), (".scala", "Scala"),
   (".r", "R"), (".m", "Objective-C")]

/-- `os.path.splitext(f)[1]`: the extension from the last dot, where a
leading run of dots is not an extension. -/
def pySplitext (name : String) : String :=
  let rest := name.data.dropWhile (· = '.')
  if rest.contains '.' then ⟨'.' :: (rest.reverse.takeWhile (· ≠ '.')).reverse⟩
  else ""

/-- All file names of the tree in `os.walk` order — this walk (unlike
`get_file_tree`'s) prunes nothing. -/
def allFilesF : Nat → List FileNode → List String
  | 0, _ => []
  | fuel + 1, ch =>
    filesOf ch ++ (subdirsOf ch).flatMap (fun pr => allFilesF fuel pr.2)

/-- Counter bump preserving insertion order (Python dict). -/
def bumpCount (l : List (String × Nat)) (k : String) : List (String × Nat) :=
  match l with
  | [] => [(k, 1)]
  | (k', n) :: rest => if k' = k then (k', n + 1) :: rest else (k', n) :: bumpCount rest k

/-- The `lang_counts` dictionary. -/
def langCounts (files : List String) : List (String × Nat) :=
  files.foldl (fun acc f =>
    match alGet lang_extensions (strLower (pySplitext f)) with
    | some lang => bumpCount acc lang
    | none => acc) []

/-- Python `max(d, key=d.get)`: the first key attaining the maximal count
in insertion order. -/
def firstMax : List (String × Nat) → Option (String × Nat)
  | [] => none
  | p :: rest =>
    match firstMax rest with
    | none => some p
    | some q => if q.2 > p.2 then some q else some p

/-- `detect_programming_language(src_dir)`. -/
def detect_programming_language (t : LocalTree) : Option String :=
  (firstMax (langCounts (allFilesF (treeFuel t) t.children))).map (·.1)

/-- `"-" * 60`. -/
def dashes60 : String := ⟨List.replicate 60 '-'⟩

/-- `str(e)` for the `IsADirectoryError` raised by `open` on a directory. -/
def isADirectoryMsg (path : String) : String :=
  "[Errno 21] Is a directory: " ++ apos ++ path ++ apos

/-- `str(e)` for `AttributeError: 'list' object has no attribute
'writelines'` — raised by `content.writelines(lines)` in
`create_context_bundle`, because `content` is a Python list. -/
def attrErrMsg : String :=
  apos ++ "list" ++ apos ++ " object has no attribute " ++ apos ++ "writelines" ++ apos

/-- The key-documents section: `src_dir.glob(p)` for the five prefix
patterns collects top-level children (files and directories) in listing
order; directories fail to `open` and产生 a read warning. -/
def docSectionLines (t : LocalTree) (max_doc_size : Nat) : List String :=
  (["README", "CONTRIBUTING", "AUTHORS", "LICENSE", "CHANGELOG"].flatMap (fun p =>
    t.children.filter (fun n =>
      match n with
      | .file f _ => strStarts f p
      | .dir d _ => strStarts d p))).flatMap (fun n =>
    match n with
    | .file f content =>
      let content :=
        if content.length > max_doc_size then
          content.take max_doc_size ++ "\n\n" ++ cYELLOW ++
            "... (文档截断，完整内容请查看源代码)" ++ cRESET
        else content
      ["\n" ++ cHEADER ++ "文件: " ++ f ++ cRESET, content, "\n" ++ dashes60 ++ "\n"]
    | .dir d _ =>
      ["\n" ++ cYELLOW ++ "无法读取 " ++ d ++ ": " ++
        isADirectoryMsg (t.rootName ++ "/" ++ d) ++ cRESET ++ "\n"])

/-- The `dep_files` table of `create_context_bundle`. -/
def dep_files : List (String × List String) :=
  [("Python", ["requirements.txt", "Pipfile", "pyproject.toml", "setup.py"]),
   ("Node.js", ["package.json", "package-lock.json", "yarn.lock", "pnpm-lock.yaml"]),
   ("Go", ["go.mod", "go.sum"]),
   ("Rust", ["Cargo.toml", "Cargo.lock"]),
   ("Java", ["pom.xml", "build.gradle", "build.gradle.kts"]),
   ("Ruby", ["Gemfile", "Gemfile.lock"])]

/-- The dependencies section: each existing top-level manifest, fenced;
directories named like a manifest fail to `open` and产生 a warning. -/
def depSectionLines (t : LocalTree) : List String :=
  dep_files.flatMap (fun pr =>
    pr.2.flatMap (fun filename =>
      match t.children.find? (fun n =>
          match n with
          | .file f _ => f = filename
          | .dir d _ => d = filename) with
      | none => []
      | some (.file _ content) =>
        ["\n" ++ cHEADER ++ pr.1 ++ " - " ++ filename ++ cRESET, "```", content, "```\n"]
      | some (.dir d _) =>
        ["\n" ++ cYELLOW ++ "无法读取 " ++ filename ++ ": " ++
          isADirectoryMsg (t.rootName ++ "/" ++ d) ++ cRESET ++ "\n"]))

/-- The `entry_points` list of `create_context_bundle` (the local one). -/
def entry_points_local : List String :=
  ["__main__.py", "main.py", "app.py", "cli.py", "core.py",
   "index.js", "main.js", "app.js", "server.js",
   "index.ts", "main.ts", "app.ts",
   "main.go", "lib.rs", "main.rs",
   "App.java", "Main.java",
   "application.rb", "main.rb"]

/-- All directories of the tree (relative segment path and listing) in
pre-order — the enumeration behind `src_dir.glob("**/name")`. -/
def dirsPreF : Nat → List String → List FileNode → List (List String × List FileNode)
  | 0, _, _ => []
  | fuel + 1, segs, ch =>
    (segs, ch) :: (subdirsOf ch).flatMap (fun pr => dirsPreF fuel (segs ++ [pr.1]) pr.2)

/-- `src_dir.glob(f"**/{entry}")`: every entry named `entry` at any depth,
tagged with whether it is a regular file. -/
def globEntryMatches (t : LocalTree) (entry : String) : List (List String × Bool) :=
  (dirsPreF (treeFuel t) [] t.children).flatMap (fun pr =>
    pr.2.filterMap (fun n =>
      match n with
      | .file f _ => if f = entry then some (pr.1 ++ [f], true) else none
      | .dir d _ => if d = entry then some (pr.1 ++ [d], false) else none))

/-- `entry.split(".")[-1] if "." in entry else "text"`. -/
def extOfEntry (entry : String) : String :=
  if strContains entry "." then (strSplitOnChar '.' entry).getLastD "" else "text"

/-- The entry-file section.  For every readable matching file the source
appends the header and the opening code fence and then evaluates
`content.writelines(lines)` — an `AttributeError`, since `content` is a
list — so the `except` branch appends the read-failure warning instead of
the 100-line preview, the closing fence is never appended, and
`found_entries` is never incremented (its `>= 10` break is dead). -/
def entrySectionLines (t : LocalTree) : List String :=
  entry_points_local.flatMap (fun entry =>
    (globEntryMatches t entry).flatMap (fun m =>
      if m.1.length > 3 then []
      else if m.2 then
        let rel := String.intercalate "/" m.1
        ["\n" ++ cHEADER ++ rel ++ cRESET,
         "```" ++ extOfEntry entry,
         "\n" ++ cYELLOW ++ "无法读取 " ++ rel ++ ": " ++ attrErrMsg ++ cRESET ++ "\n"]
      else []))

/-- The document text assembled by `create_context_bundle`. -/
def create_context_bundle_doc (t : LocalTree) (max_file_count max_doc_size : Nat)
    (skip_patterns : List String) : String :=
  strJoinNl
    ([cHEADER ++ "项目结构" ++ cRESET, "```",
      get_file_tree t max_file_count skip_patterns, "```\n"] ++
     (match detect_programming_language t with
      | some l => [cHEADER ++ "编程语言: " ++ cRESET ++ l ++ "\n"]
      | none => []) ++
     [cHEADER ++ "关键文档" ++ cRESET] ++ docSectionLines t max_doc_size ++
     ["\n" ++ cHEADER ++ "依赖项" ++ cRESET] ++ depSectionLines t ++
     ["\n" ++ cHEADER ++ "主要入口文件" ++ cRESET] ++ entrySectionLines t)

/-- `create_context_bundle(src_dir, output_path, ...)`: the fully computed
document and its single whole-document write. -/
def create_context_bundle (t : LocalTree) (outputPath : String)
    (max_file_count max_doc_size : Nat) (skip_patterns : List String) :
    String × List Event :=
  (create_context_bundle_doc t max_file_count max_doc_size skip_patterns,
   [Event.writeFile outputPath])

/-! ## Bundle assembler for the online path (`create_online_context_bundle`) -/

/-- Code-point comparison on strings (Python string ordering). -/
def charListLe : List Char → List Char → Bool
  | [], _ => true
  | _ :: _, [] => false
  | a :: as, b :: bs => if a = b then charListLe as bs else decide (a < b)

def strLe (a b : String) : Bool := charListLe a.data b.data

/-- Stable insertion into a sorted list. -/
def insertSortedStr (x : String) : List String → List String
  | [] => [x]
  | y :: rest => if strLe x y then x :: y :: rest else y :: insertSortedStr x rest

/-- Python `sorted` on strings. -/
def pySorted (l : List String) : List String := l.foldr insertSortedStr []

/-- `name.split(".")[-1] if "." in name else ""`. -/
def extOfName (n : String) : String :=
  if strContains n "." then (strSplitOnChar '.' n).getLastD "" else ""

/-- The document text assembled by `create_online_context_bundle`: sorted
tree, language, key documents (truncated at `max_doc_size`), core-code and
entry-file previews, dependency manifests, joined by newlines. -/
def online_bundle_doc (data : ScanResults) (max_doc_size : Nat) : String :=
  strJoinNl
    ([cHEADER ++ "项目结构 (全在线递归扫描)" ++ cRESET, "```",
      strJoinNl (pySorted data.tree), "```\n",
      cHEADER ++ "主要语言: " ++ cRESET ++ data.language ++ "\n",
      cHEADER ++ "关键文档内容" ++ cRESET] ++
     data.key_docs.flatMap (fun pr =>
       let text :=
         if pr.2.length > max_doc_size then
           pr.2.take max_doc_size ++ "\n\n" ++ cYELLOW ++ "... (文档截断)" ++ cRESET
         else pr.2
       ["\n" ++ cHEADER ++ "文件: " ++ pr.1 ++ cRESET, text, "\n" ++ dashes60 ++ "\n"]) ++
     (if data.core_code.isEmpty then []
      else ["\n" ++ cHEADER ++ "核心代码预览 (Top 100 Lines)" ++ cRESET] ++
        data.core_code.flatMap (fun pr =>
          ["\n" ++ cHEADER ++ "文件: " ++ pr.1 ++ cRESET,
           "```" ++ extOfName pr.1, pr.2, "```\n"])) ++
     (if data.entry_files.isEmpty then []
      else ["\n" ++ cHEADER ++ "入口文件预览 (Top 100 Lines)" ++ cRESET] ++
        data.entry_files.flatMap (fun pr =>
          ["\n" ++ cHEADER ++ "文件: " ++ pr.1 ++ cRESET,
           "```" ++ extOfName pr.1, pr.2, "```\n"])) ++
     ["\n" ++ cHEADER ++ "依赖项详情" ++ cRESET] ++
     data.dependencies.flatMap (fun pr =>
       ["\n" ++ cHEADER ++ pr.1 ++ cRESET, "```", pr.2, "```\n"]))

/-- `create_online_context_bundle(online_data, output_path, config)`: the
document is fully computed in memory from its arguments, then written once. -/
def create_online_context_bundle (data : ScanResults) (outputPath : String)
    (cfg : ForgeConfig) : String × List Event :=
  (online_bundle_doc data cfg.max_doc_size, [Event.writeFile outputPath])

/-! ## Acquisition orchestrator (`process_single_repository`) -/

/-- The external world of one repository run. -/
structure OrchEnv where
  /-- metadata replies for the safety gate's API requests -/
  apiResp : String → ApiReply RepoMeta
  /-- the remote tree for the online scanner -/
  scan : ScanEnv
  /-- the clone-subprocess outcome per (attempt, cloneUrl) -/
  cloneOk : Nat → String → Bool
  /-- the working tree materialised when a clone succeeds -/
  clonedTree : LocalTree
  /-- paths existing before the run -/
  fs0 : List String

/-- The skill name: the explicit second CLI argument, else
`{repo}-skill` from `get_repo_info`, else from `get_repo_name`. -/
def skill_name_of (url : String) (skillName : Option String) : String :=
  match skillName with
  | some s => s
  | none =>
    match get_repo_info url with
    | .ok pr => pr.2 ++ "-skill"
    | .error _ => get_repo_name url ++ "-skill"

/-- `create_skill_structure(skill_name, target_dir)`: three
`mkdir(parents=True, exist_ok=True)` calls, in the dictionary's insertion
order. -/
def create_skill_structure_events (target : String) : List Event :=
  [Event.mkdirP target, Event.mkdirP (target ++ "/src"),
   Event.mkdirP (target ++ "/scripts")]

/-- `create_default_files`: writes `SKILL.md` and `.gitignore`, touches a
`requirements.txt` placeholder when a Python build file exists beside it,
and writes the parent `README.md` only if absent.  Returns the events and
the updated filesystem. -/
def create_default_files_events (target srcDir parentDir : String)
    (fs : List String) : List Event × List String :=
  let ev := [Event.writeFile (target ++ "/SKILL.md"),
             Event.writeFile (target ++ "/.gitignore")]
  let fs := (target ++ "/SKILL.md") :: (target ++ "/.gitignore") :: fs
  let (ev, fs) :=
    if !fs.contains (srcDir ++ "/requirements.txt") &&
        (["setup.py", "pyproject.toml", "Pipfile"].any (fun f =>
          fs.contains (srcDir ++ "/" ++ f))) then
      (ev ++ [Event.touchFile (srcDir ++ "/requirements.txt")],
       (srcDir ++ "/requirements.txt") :: fs)
    else (ev, fs)
  if !fs.contains (parentDir ++ "/README.md") then
    (ev ++ [Event.writeFile (parentDir ++ "/README.md")],
     (parentDir ++ "/README.md") :: fs)
  else (ev, fs)

/-- The fallback branch of the orchestrator: recreate the `src` directory,
shallow-clone into it, and on success scan locally, build the bundle and
the default files, and delete the cloned sources; on clone failure report
failure. -/
def orch_fallback (url : String) (cfg : ForgeConfig)
    (target srcDir baseOutputDir : String) (env : OrchEnv)
    (fs : List String) (ev : List Event) : Bool × List Event :=
  let (ev, fs) :=
    if fs.contains srcDir then (ev ++ [Event.rmtree srcDir], fsRemoveTree fs srcDir)
    else (ev, fs)
  let fs := srcDir :: fs
  let ev := ev ++ [Event.mkdirP srcDir]
  match clone_repository url srcDir cfg fs env.cloneOk with
  | (false, _, cev) => (false, ev ++ cev)
  | (true, fs2, cev) =>
    let ev := ev ++ cev
    -- cleanup_git_folder
    let (ev, fs3) :=
      if fs2.contains (srcDir ++ "/.git") then
        (ev ++ [Event.rmtree (srcDir ++ "/.git")], fsRemoveTree fs2 (srcDir ++ "/.git"))
      else (ev, fs2)
    let bundle := create_context_bundle env.clonedTree (target ++ "/context_bundle.md")
      cfg.max_file_count cfg.max_doc_size cfg.skip_patterns
    let ev := ev ++ bundle.2
    let fs4 := (target ++ "/context_bundle.md") :: fs3
    let (dev, fs5) := create_default_files_events target srcDir baseOutputDir fs4
    let ev := ev ++ dev
    let ev := if fs5.contains srcDir then ev ++ [Event.rmtree srcDir] else ev
    (true, ev)

/-- `process_single_repository(url, skill_name, config, base_output_dir)`:
the orchestration state machine, returning the boolean outcome and the
filesystem/subprocess events of the run. -/
def process_single_repository (url : String) (skillName : Option String)
    (cfg : ForgeConfig) (baseOutputDir : String) (env : OrchEnv) :
    Bool × List Event :=
  if !validate_url url then (false, [])
  else
    let sname := skill_name_of url skillName
    let target := baseOutputDir ++ "/" ++ sname
    let srcDir := target ++ "/src"
    let ev0 := create_skill_structure_events target
    let fs1 := srcDir :: (target ++ "/scripts") :: target :: env.fs0
    -- safety gate: reject unless safe, bypassed, or forced past a warning
    let gate :=
      if cfg.no_safety_check then true
      else (check_repository_safety url cfg env.apiResp).1 || cfg.force
    if !gate then (false, ev0)
    else if cfg.dry_run then (true, ev0)
    else
      match online_repo_scanner env.scan url with
      | .ok (some results) =>
        if results.tree.isEmpty then
          orch_fallback url cfg target srcDir baseOutputDir env fs1 ev0
        else
          let bundle := create_online_context_bundle results
            (target ++ "/context_bundle.md") cfg
          let ev := ev0 ++ bundle.2
          let fs := (target ++ "/context_bundle.md") :: fs1
          let (dev, fs) := create_default_files_events target srcDir baseOutputDir fs
          let ev := ev ++ dev
          let ev :=
            if fs.contains srcDir && fsHasChild fs srcDir then
              ev ++ [Event.rmtree srcDir, Event.mkdirP srcDir]
            else ev
          (true, ev)
      | _ => orch_fallback url cfg target srcDir baseOutputDir env fs1 ev0

/-- The exit code of single-URL mode in `main`. -/
def single_repo_exit_code (url : String) (skillName : Option String)
    (cfg : ForgeConfig) (baseOutputDir : String) (env : OrchEnv) : Nat :=
  if (process_single_repository url skillName cfg baseOutputDir env).1 then 0 else 1

/-! ## Proof-side definitions and concrete instances -/

/-- Concrete instance for `api_failover_first_success`: the first two
default endpoints fail, the third answers. -/
def respC8 : String → ApiReply Nat := fun u =>
  if u = "https://api.github.com/repos/foo/bar" then .httpError 500
  else if u = "https://gh-api.vps.sc/repos/foo/bar" then .failure
  else .ok 7

/-- The clone-subprocess events of one retry round. -/
def cloneEventsOf (url : String) (cfg : ForgeConfig) (target : String) : List Event :=
  (clone_candidate_urls url cfg).map (fun u => Event.gitClone u target)

/-- Metadata of a repository with 50 stars — below the default 100-star
threshold. -/
def metaLow : RepoMeta :=
  { stargazers_count := 50, forks_count := 3,
    license_spdx := some "MIT", description := "demo tool" }

/-- A world whose metadata endpoint reports `metaLow`, whose online scan
finds nothing and whose clone attempts all fail. -/
def envLowStars : OrchEnv :=
  { apiResp := fun _ => .ok metaLow,
    scan := { dirs := [], contents := fun _ => "" },
    cloneOk := fun _ _ => false,
    clonedTree := { rootName := "src", children := [] },
    fs0 := [] }

/-- A cloned working tree holding one readable entry-point file. -/
def treeC5 : LocalTree :=
  { rootName := "src", children := [.file "main.py" "import sys\nprint(2)"] }

/-- The C9 scenario tree: `README.md` and `requirements.txt` at the root,
`main.py` inside `src`. -/
def envC9 : ScanEnv :=
  { dirs :=
      [("", [⟨"README.md", "file", "u1"⟩, ⟨"requirements.txt", "file", "u2"⟩,
             ⟨"src", "dir", "u3"⟩]),
       ("src", [⟨"main.py", "file", "u4"⟩])],
    contents := fun u =>
      if u = "u1" then "# Demo" else if u = "u2" then "requests" else
      if u = "u4" then "import sys\nprint(2)" else "" }

/-- The scan results of the C9 scenario. -/
def stC9 : ScanResults :=
  match online_repo_scanner envC9 "https://github.com/alice/demo" with
  | .ok (some r) => r
  | _ => default

/-- A root listing with three files — more than a `maxTreeEntries` budget
of 2. -/
def envTreeCap : ScanEnv :=
  { dirs := [("", [⟨"a.txt", "file", "u"⟩, ⟨"b.txt", "file", "u"⟩,
                   ⟨"c.txt", "file", "u"⟩])],
    contents := fun _ => "" }

/-- A configuration whose tree budget (`max_file_count`) is 2. -/
def cfgSmallTree : ForgeConfig := { max_file_count := 2 }

/-- The scan results of the three-file tree. -/
def stTreeCap : ScanResults :=
  match online_repo_scanner envTreeCap "https://github.com/foo/threefiles" with
  | .ok (some r) => r
  | _ => default

/-- The budget invariant maintained by the scanner. -/
def scanCaps (r : ScanResults) : Prop :=
  r.key_docs.length ≤ 5 ∧ r.entry_files.length ≤ 5 ∧
    r.core_code.length ≤ 10 ∧ (r.dependencies.map Prod.fst).Nodup

/-- Paths of the tree not yet visited — the decreasing part of the loop
measure. -/
def unvisitedCount (dirs : Dirs) (v : List String) : Nat :=
  ((allPaths dirs).filter (fun p => !v.contains p)).length

/-! ## Properties of the endpoint failover client -/

lemma charsPre_self_append (p l : List Char) : charsPre p (p ++ l) = true := by
  induction p with
  | nil => rfl
  | cons c cs ih => simp [charsPre, ih]

lemma charsSub_of_pre {pat l : List Char} (h : charsPre pat l = true) :
    charsSub pat l = true := by
  cases l with
  | nil =>
    cases pat with
    | nil => rfl
    | cons p ps => simp [charsPre] at h
  | cons c cs => simp [charsSub, h]

lemma charsSub_append_left (pat : List Char) :
    ∀ a l, charsSub pat l = true → charsSub pat (a ++ l) = true := by
  intro a
  induction a with
  | nil => intro l h; simpa using h
  | cons x xs ih =>
    intro l h
    simp only [List.cons_append, charsSub, Bool.or_eq_true]
    exact Or.inr (ih l h)

/-- Any string of the shape `a ++ s ++ b` contains `s`. -/
lemma strContains_mid (a s b : String) : strContains (a ++ s ++ b) s = true := by
  show charsSub s.data (a ++ s ++ b).data = true
  have hdata : (a ++ s ++ b).data = a.data ++ (s.data ++ b.data) := by
    simp [String.data_append]
  rw [hdata]
  exact charsSub_append_left _ _ _
    (charsSub_of_pre (charsPre_self_append s.data b.data))

lemma apiRequestLoop_exhaust {α : Type} (path : String) (resp : String → ApiReply α) :
    ∀ bases, (∀ b ∈ bases, (resp (apiUrlOf b path)).isOk = false) →
      apiRequestLoop path resp bases = (bases, .error (endpointExhaustedMsg path)) := by
  intro bases
  induction bases with
  | nil => intro _; rfl
  | cons b rest ih =>
    intro h
    have hb := h b (List.mem_cons_self b rest)
    cases hrb : resp (apiUrlOf b path) with
    | ok v => rw [hrb] at hb; simp [ApiReply.isOk] at hb
    | httpError code =>
      simp [apiRequestLoop, hrb, ih (fun x hx => h x (List.mem_cons_of_mem _ hx))]
    | failure =>
      simp [apiRequestLoop, hrb, ih (fun x hx => h x (List.mem_cons_of_mem _ hx))]

lemma apiRequestLoop_first_success {α : Type} (path : String)
    (resp : String → ApiReply α) (v : α) :
    ∀ pre (e : String) (post : List String),
      (∀ b ∈ pre, (resp (apiUrlOf b path)).isOk = false) →
      resp (apiUrlOf e path) = .ok v →
      apiRequestLoop path resp (pre ++ e :: post) = (pre ++ [e], .ok (v, e)) := by
  intro pre
  induction pre with
  | nil => intro e post _ he; simp [apiRequestLoop, he]
  | cons b rest ih =>
    intro e post h he
    have hb := h b (List.mem_cons_self b rest)
    cases hrb : resp (apiUrlOf b path) with
    | ok w => rw [hrb] at hb; simp [ApiReply.isOk] at hb
    | httpError code =>
      simp [apiRequestLoop, hrb, ih e post (fun x hx => h x (List.mem_cons_of_mem _ hx)) he]
    | failure =>
      simp [apiRequestLoop, hrb, ih e post (fun x hx => h x (List.mem_cons_of_mem _ hx)) he]

/-- C8: `make_api_request` tries the configured endpoints strictly in list
order: when every endpoint before `e` fails (any HTTP error or exception)
and `e` succeeds, it returns `e`'s parsed result, contacts exactly the
prefix up to `e` (never the endpoints after `e`), and records `e` as the
new preferred base; when every endpoint fails it raises a `ForgeError`
whose message names the request path. -/
theorem api_failover_first_success :
    (∀ (α : Type) (path : String) (cfg : ForgeConfig) (resp : String → ApiReply α)
       (pre post : List String) (e : String) (v : α),
       cfg.api_mirrors = pre ++ e :: post →
       (∀ b ∈ pre, (resp (apiUrlOf b path)).isOk = false) →
       resp (apiUrlOf e path) = .ok v →
       make_api_request path cfg resp = (pre ++ [e], .ok (v, e))) ∧
    (∀ (α : Type) (path : String) (cfg : ForgeConfig) (resp : String → ApiReply α),
       (∀ b ∈ cfg.api_mirrors, (resp (apiUrlOf b path)).isOk = false) →
       make_api_request path cfg resp =
         (cfg.api_mirrors, .error (endpointExhaustedMsg path)) ∧
       strContains (endpointExhaustedMsg path) path = true) := by
  constructor
  · intro α path cfg resp pre post e v hm h he
    unfold make_api_request
    rw [hm]
    exact apiRequestLoop_first_success path resp v pre e post h he
  · intro α path cfg resp h
    refine ⟨apiRequestLoop_exhaust path resp cfg.api_mirrors h, ?_⟩
    exact strContains_mid "所有 API 镜像均无法访问: " path "。请检查网络或配置代理。"

theorem api_failover_first_success_instance :
    make_api_request "repos/foo/bar" forgeConfigDefault respC8 =
      (["https://api.github.com", "https://gh-api.vps.sc", "https://api.gitmirror.com"],
       .ok (7, "https://api.gitmirror.com")) :=
  api_failover_first_success.1 Nat "repos/foo/bar" forgeConfigDefault respC8
    ["https://api.github.com", "https://gh-api.vps.sc"]
    ["https://ghproxy.net/https://api.github.com", "https://gh.api.99988866.xyz"]
    "https://api.gitmirror.com" 7 rfl (by decide) (by decide)

/-! ## Properties of the bundle assembler (online path) -/

/-- C10: `create_online_context_bundle` is a pure function of the scan
results and the size limit: two runs on identical scan-result data and a
configuration agreeing on `max_doc_size` produce byte-identical documents
(in particular, running it twice on identical input is idempotent), and
each run performs exactly one whole-document write of the output path and
no other I/O of its own. -/
theorem bundle_assembler_deterministic :
    ∀ (data : ScanResults) (path : String) (c1 c2 : ForgeConfig),
      c1.max_doc_size = c2.max_doc_size →
      create_online_context_bundle data path c1 = create_online_context_bundle data path c2 ∧
      (create_online_context_bundle data path c1).2 = [Event.writeFile path] := by
  intro data path c1 c2 h
  unfold create_online_context_bundle
  rw [h]
  exact ⟨rfl, rfl⟩

theorem bundle_assembler_deterministic_instance :
    create_online_context_bundle
        { tree := ["[file] b", "[file] a"], language := "Python" } "out/context_bundle.md"
        forgeConfigDefault =
      create_online_context_bundle
        { tree := ["[file] b", "[file] a"], language := "Python" } "out/context_bundle.md"
        { forgeConfigDefault with verbose := true } ∧
    (create_online_context_bundle
        { tree := ["[file] b", "[file] a"], language := "Python" } "out/context_bundle.md"
        forgeConfigDefault).2 = [Event.writeFile "out/context_bundle.md"] :=
  bundle_assembler_deterministic
    { tree := ["[file] b", "[file] a"], language := "Python" } "out/context_bundle.md"
    forgeConfigDefault { forgeConfigDefault with verbose := true } rfl

/-! ## Properties of the clone fallback -/

lemma cloneRound_fail (ok : Nat → String → Bool) (a : Nat) (target : String) :
    ∀ urls, (∀ u ∈ urls, ok a u = false) →
      cloneRound ok a target urls =
        (false, urls.map (fun u => Event.gitClone u target)) := by
  intro urls
  induction urls with
  | nil => intro _; rfl
  | cons u rest ih =>
    intro h
    have hu := h u (List.mem_cons_self u rest)
    simp [cloneRound, hu, ih (fun x hx => h x (List.mem_cons_of_mem _ hx))]

lemma cloneAttempts_three_fail (urls : List String) (target : String)
    (ok : Nat → String → Bool) (h : ∀ a u, ok a u = false) :
    cloneAttempts urls target ok [0, 1, 2] =
      (false,
        urls.map (fun u => Event.gitClone u target) ++ Event.sleep 2 ::
          (urls.map (fun u => Event.gitClone u target) ++ Event.sleep 4 ::
            urls.map (fun u => Event.gitClone u target))) := by
  have h0 := cloneRound_fail ok 0 target urls (fun u _ => h 0 u)
  have h1 := cloneRound_fail ok 1 target urls (fun u _ => h 1 u)
  have h2 := cloneRound_fail ok 2 target urls (fun u _ => h 2 u)
  simp [cloneAttempts, h0, h1, h2]

lemma filter_isClone_map (l : List String) (t : String) :
    (l.map (fun u => Event.gitClone u t)).filter Event.isClone =
      l.map (fun u => Event.gitClone u t) := by
  induction l with
  | nil => rfl
  | cons u rest ih => simp [List.filter_cons, Event.isClone, ih]

lemma filter_isWrite_map_clone (l : List String) (t : String) :
    (l.map (fun u => Event.gitClone u t)).filter Event.isWrite = [] := by
  induction l with
  | nil => rfl
  | cons u rest ih => simp [List.filter_cons, Event.isWrite, ih]

/-- C4 (amended): with `max_retries = 3`, a target directory that does not
pre-exist and every clone attempt failing, `clone_repository` leaves the
filesystem untouched and produces exactly three rounds over the candidate
URL list — the mirror-derived URLs plus the original URL appended only when
distinct from all of them — with a 2-second sleep after the first round, a
4-second sleep after the second, and no sleep inside a round or after the
last; the clone subprocess runs exactly `3 * C` times for `C` candidate
URLs. -/
theorem clone_retry_schedule :
    ∀ (url target : String) (cfg : ForgeConfig) (fs : List String)
      (ok : Nat → String → Bool),
      cfg.max_retries = 3 →
      target ∉ fs →
      (∀ a u, ok a u = false) →
      clone_repository url target cfg fs ok =
        (false, fs,
          cloneEventsOf url cfg target ++ Event.sleep 2 ::
            (cloneEventsOf url cfg target ++ Event.sleep 4 ::
              cloneEventsOf url cfg target)) ∧
      ((clone_repository url target cfg fs ok).2.2.filter Event.isClone).length =
        3 * (clone_candidate_urls url cfg).length := by
  intro url target cfg fs ok hretries hfs hfail
  have hrange : List.range cfg.max_retries = [0, 1, 2] := by rw [hretries]; rfl
  have hmain : clone_repository url target cfg fs ok =
      (false, fs,
        cloneEventsOf url cfg target ++ Event.sleep 2 ::
          (cloneEventsOf url cfg target ++ Event.sleep 4 ::
            cloneEventsOf url cfg target)) := by
    unfold clone_repository
    rw [hrange]
    simp [hfs, cloneAttempts_three_fail (clone_candidate_urls url cfg) target ok hfail,
      cloneEventsOf]
  refine ⟨hmain, ?_⟩
  rw [hmain]
  simp [cloneEventsOf, List.filter_append, List.filter_cons, Event.isClone,
    filter_isClone_map]
  ring

/-- Concrete instance for `clone_retry_schedule` (a `.git`-suffixed URL, so
the original URL differs from every mirror-derived candidate and the
candidate count is `M + 1 = 4`). -/
theorem clone_retry_schedule_instance :
    ((clone_repository "https://github.com/foo/bar.git" "skills/bar-skill/src"
        forgeConfigDefault [] (fun _ _ => false)).2.2.filter Event.isClone).length =
      3 * (clone_candidate_urls "https://github.com/foo/bar.git" forgeConfigDefault).length :=
  (clone_retry_schedule "https://github.com/foo/bar.git" "skills/bar-skill/src"
    forgeConfigDefault [] (fun _ _ => false) rfl (by simp) (fun _ _ => rfl)).2

/-- C4 (counterexample): for the default mirror configuration (`M = 3`
mirrors, the first of which is `https://github.com` itself) and a plain
HTTPS GitHub URL, the original URL coincides with the first mirror-derived
candidate, so it is not appended: all three rounds make `3 * M = 9` clone
invocations, not `3 * (M + 1) = 12` as the claim states. -/
theorem clone_invocation_count_default_mirrors :
    ((clone_repository "https://github.com/foo/bar" "skills/bar-skill/src"
        forgeConfigDefault [] (fun _ _ => false)).2.2.filter Event.isClone).length = 9 ∧
    (clone_candidate_urls "https://github.com/foo/bar" forgeConfigDefault).length = 3 ∧
    forgeConfigDefault.clone_mirrors.length = 3 ∧
    ¬(((clone_repository "https://github.com/foo/bar" "skills/bar-skill/src"
        forgeConfigDefault [] (fun _ _ => false)).2.2.filter Event.isClone).length =
      3 * (forgeConfigDefault.clone_mirrors.length + 1)) := by
  decide

/-- C1 (counterexample): with 50 stars against the default 100-star
threshold and no force override, `process_single_repository` does return
failure — but it has already performed filesystem writes before the safety
gate even runs: `create_skill_structure` creates the skill directory and
its `src` and `scripts` subdirectories, so the event list of the rejected
run is not empty as the claim requires. -/
theorem safety_gate_writes_before_rejection :
    process_single_repository "https://github.com/foo/bar" none forgeConfigDefault
        "skills" envLowStars =
      (false,
       [Event.mkdirP "skills/bar-skill", Event.mkdirP "skills/bar-skill/src",
        Event.mkdirP "skills/bar-skill/scripts"]) ∧
    (process_single_repository "https://github.com/foo/bar" none forgeConfigDefault
        "skills" envLowStars).2 ≠ [] := by
  decide

/-- C5 (code bug): for a cloned tree containing the readable entry file
`main.py`, the document built by `create_context_bundle` does NOT contain
the file's first-100-lines preview.  The source appends the path header and
the opening ```` ```py ```` fence, then calls `content.writelines(lines)` on
the Python list `content`; the resulting `AttributeError` is caught and the
read-failure warning is appended in place of the preview, so no entry-file
content ever reaches the local bundle (while the online scanner's bundle
does carry such previews). -/
theorem entry_preview_attribute_error :
    strContains
        (create_context_bundle_doc treeC5 forgeConfigDefault.max_file_count
          forgeConfigDefault.max_doc_size forgeConfigDefault.skip_patterns)
        ("无法读取 main.py: " ++ attrErrMsg) = true ∧
    strContains
        (create_context_bundle_doc treeC5 forgeConfigDefault.max_file_count
          forgeConfigDefault.max_doc_size forgeConfigDefault.skip_patterns)
        "```py" = true ∧
    strContains
        (create_context_bundle_doc treeC5 forgeConfigDefault.max_file_count
          forgeConfigDefault.max_doc_size forgeConfigDefault.skip_patterns)
        "import sys" = false := by
  decide

/-- C9: an online scan of a repository whose root lists `README.md` and
`requirements.txt` and whose `src` directory lists `main.py`, with every
fetch succeeding, detects the language `Python`, stores `README.md` among
the key documents, `requirements.txt` among the dependency manifests and
`src/main.py` (its first 100 lines) among the entry files. -/
theorem scanner_scenario_python :
    online_repo_scanner envC9 "https://github.com/alice/demo" =
      Except.ok (some stC9) ∧
    stC9.language = "Python" ∧
    alGet stC9.key_docs "README.md" = some "# Demo" ∧
    alGet stC9.dependencies "requirements.txt" = some "requests" ∧
    alGet stC9.entry_files "src/main.py" = some "import sys\nprint(2)" :=
  ⟨rfl, by decide, by decide, by decide, by decide⟩

/-- C6 (counterexample): `online_repo_scanner` appends every listed entry
to its tree unconditionally — the configured `maxTreeEntries` budget
(`max_file_count`) is never consulted — so a root with three entries
produces a tree of length 3 even under a budget of 2. -/
theorem scanner_tree_uncapped :
    online_repo_scanner envTreeCap "https://github.com/foo/threefiles" =
      Except.ok (some stTreeCap) ∧
    stTreeCap.tree.length = 3 ∧
    ¬(stTreeCap.tree.length ≤ cfgSmallTree.max_file_count) :=
  ⟨rfl, by decide, by decide⟩

/-! ## Budget invariants of the online scanner -/

lemma dictSet_length_le (l : List (String × String)) (k v : String) :
    (dictSet l k v).length ≤ l.length + 1 := by
  induction l with
  | nil => simp [dictSet]
  | cons p rest ih =>
    obtain ⟨k', v'⟩ := p
    by_cases h : k' = k
    · simp [dictSet, h]
    · simp only [dictSet, if_neg h, List.length_cons]
      omega

lemma scanStepDocs_proj (env : ScanEnv) (rel : String) (it : Item) (r : ScanResults) :
    (scanStepDocs env rel it r).entry_files = r.entry_files ∧
    (scanStepDocs env rel it r).core_code = r.core_code ∧
    (scanStepDocs env rel it r).dependencies = r.dependencies := by
  unfold scanStepDocs
  split
  · split
    · exact ⟨rfl, rfl, rfl⟩
    · exact ⟨rfl, rfl, rfl⟩
  · exact ⟨rfl, rfl, rfl⟩

lemma scanStepDocs_key_le (env : ScanEnv) (rel : String) (it : Item) (r : ScanResults)
    (h : r.key_docs.length ≤ 5) : (scanStepDocs env rel it r).key_docs.length ≤ 5 := by
  unfold scanStepDocs
  split
  · split
    · rename_i hlen
      exact le_trans (dictSet_length_le r.key_docs rel _) (by omega)
    · exact h
  · exact h

lemma depsUpdate_proj (env : ScanEnv) (it : Item) (r : ScanResults) :
    (depsUpdate env it r).key_docs = r.key_docs ∧
    (depsUpdate env it r).entry_files = r.entry_files ∧
    (depsUpdate env it r).core_code = r.core_code := by
  unfold depsUpdate
  split
  · exact ⟨rfl, rfl, rfl⟩
  · exact ⟨rfl, rfl, rfl⟩

lemma scanStepDeps_proj (env : ScanEnv) (it : Item) (r : ScanResults) :
    (scanStepDeps env it r).key_docs = r.key_docs ∧
    (scanStepDeps env it r).entry_files = r.entry_files ∧
    (scanStepDeps env it r).core_code = r.core_code := by
  unfold scanStepDeps
  split
  · exact ⟨rfl, rfl, rfl⟩
  · rename_i lang _
    obtain ⟨h1, h2, h3⟩ :=
      depsUpdate_proj env it
        (if r.language = "Unknown" then { r with language := lang } else r)
    refine ⟨?_, ?_, ?_⟩
    · rw [h1]; split <;> rfl
    · rw [h2]; split <;> rfl
    · rw [h3]; split <;> rfl

lemma alGet_none_not_mem {α : Type} :
    ∀ (l : List (String × α)) (k : String), alGet l k = none → k ∉ l.map Prod.fst := by
  intro l
  induction l with
  | nil => intro k _; simp
  | cons p rest ih =>
    intro k h
    obtain ⟨k', v⟩ := p
    by_cases hk : k' = k
    · simp [alGet, hk] at h
    · simp only [alGet, if_neg hk] at h
      simp only [List.map_cons, List.mem_cons]
      rintro (rfl | hm)
      · exact hk rfl
      · exact ih k h hm

lemma depsUpdate_nodup (env : ScanEnv) (it : Item) (r : ScanResults)
    (h : (r.dependencies.map Prod.fst).Nodup) :
    ((depsUpdate env it r).dependencies.map Prod.fst).Nodup := by
  unfold depsUpdate
  split
  · rename_i hnone
    rw [Option.isNone_iff_eq_none] at hnone
    have hnm := alGet_none_not_mem r.dependencies it.name hnone
    have hnm2 : ∀ x, (it.name, x) ∉ r.dependencies := fun x hx =>
      hnm (by simpa using List.mem_map_of_mem Prod.fst hx)
    simpa [List.nodup_append] using ⟨h, hnm2⟩
  · exact h

lemma scanStepDeps_nodup (env : ScanEnv) (it : Item) (r : ScanResults)
    (h : (r.dependencies.map Prod.fst).Nodup) :
    ((scanStepDeps env it r).dependencies.map Prod.fst).Nodup := by
  unfold scanStepDeps
  split
  · exact h
  · rename_i lang _
    refine depsUpdate_nodup env it _ ?_
    split
    · exact h
    · exact h

lemma scanStepCode_proj (env : ScanEnv) (rel : String) (depth : Nat) (it : Item)
    (r : ScanResults) :
    (scanStepCode env rel depth it r).key_docs = r.key_docs ∧
    (scanStepCode env rel depth it r).dependencies = r.dependencies := by
  unfold scanStepCode
  split
  · split
    · exact ⟨rfl, rfl⟩
    · split
      · split
        · exact ⟨rfl, rfl⟩
        · exact ⟨rfl, rfl⟩
      · split
        · split
          · exact ⟨rfl, rfl⟩
          · exact ⟨rfl, rfl⟩
        · exact ⟨rfl, rfl⟩
  · exact ⟨rfl, rfl⟩

lemma scanStepCode_entry_le (env : ScanEnv) (rel : String) (depth : Nat) (it : Item)
    (r : ScanResults) (h : r.entry_files.length ≤ 5) :
    (scanStepCode env rel depth it r).entry_files.length ≤ 5 := by
  unfold scanStepCode
  split
  · split
    · exact h
    · split
      · split
        · rename_i hlen
          exact le_trans (dictSet_length_le r.entry_files rel _) (by omega)
        · exact h
      · split
        · split
          · exact h
          · exact h
        · exact h
  · exact h

lemma scanStepCode_core_le (env : ScanEnv) (rel : String) (depth : Nat) (it : Item)
    (r : ScanResults) (h : r.core_code.length ≤ 10) :
    (scanStepCode env rel depth it r).core_code.length ≤ 10 := by
  unfold scanStepCode
  split
  · split
    · exact h
    · split
      · split
        · exact h
        · exact h
      · split
        · split
          · rename_i hlen
            exact le_trans (dictSet_length_le r.core_code rel _) (by omega)
          · exact h
        · exact h
  · exact h

lemma procItem_caps (env : ScanEnv) (repo cur : String) (depth maxDepth : Nat)
    (it : Item) (r : ScanResults) (h : scanCaps r) :
    scanCaps (procItem env repo cur depth maxDepth it r).1 := by
  obtain ⟨h1, h2, h3, h4⟩ := h
  unfold procItem
  simp only []
  set rel := relPathOf cur it.name with hrel
  set r0 : ScanResults :=
    { r with tree := r.tree ++ ["[" ++ it.ty ++ "] " ++ rel] } with hr0
  set rA := scanStepDocs env rel it r0 with hrA
  set rB := scanStepDeps env it rA with hrB
  obtain ⟨pA1, pA2, pA3⟩ := scanStepDocs_proj env rel it r0
  obtain ⟨pB1, pB2, pB3⟩ := scanStepDeps_proj env it rA
  obtain ⟨pC1, pC2⟩ := scanStepCode_proj env rel depth it rB
  refine ⟨?_, ?_, ?_, ?_⟩
  · rw [pC1, pB1]
    exact scanStepDocs_key_le env rel it r0 h1
  · refine scanStepCode_entry_le env rel depth it rB ?_
    rw [pB2, pA1]
    exact h2
  · refine scanStepCode_core_le env rel depth it rB ?_
    rw [pB3, pA2]
    exact h3
  · rw [pC2]
    refine scanStepDeps_nodup env it rA ?_
    rw [pA3]
    exact h4

lemma procItems_caps (env : ScanEnv) (repo cur : String) (depth maxDepth : Nat) :
    ∀ (items : List Item) (r : ScanResults), scanCaps r →
      scanCaps (procItems env repo cur depth maxDepth items r).1 := by
  intro items
  induction items with
  | nil => intro r h; exact h
  | cons it rest ih =>
    intro r h
    have h1 := procItem_caps env repo cur depth maxDepth it r h
    have h2 := ih (procItem env repo cur depth maxDepth it r).1 h1
    simpa [procItems] using h2

lemma scanLoop_caps (env : ScanEnv) (repo : String) (maxDepth : Nat) :
    ∀ (fuel : Nat) (q : List (String × Nat)) (visited : List String)
      (enqLog : List (String × Nat)) (r : ScanResults)
      (out : ScanResults × List String × List (String × Nat)),
      scanLoop env repo maxDepth fuel q visited enqLog r = some out →
      scanCaps r → scanCaps out.1 := by
  intro fuel
  induction fuel with
  | zero =>
    intro q visited enqLog r out h hc
    cases q with
    | nil => simp only [scanLoop, Option.some.injEq] at h; rw [← h]; exact hc
    | cons hd tl => simp [scanLoop] at h
  | succ f ih =>
    intro q visited enqLog r out h hc
    cases q with
    | nil => simp only [scanLoop, Option.some.injEq] at h; rw [← h]; exact hc
    | cons hd tl =>
      obtain ⟨p, d⟩ := hd
      simp only [scanLoop] at h
      split at h
      · exact ih tl visited enqLog r out h hc
      · cases hl : lookupA env.dirs p with
        | none =>
          simp only [hl] at h
          exact ih tl (p :: visited) enqLog r out h hc
        | some items =>
          simp only [hl] at h
          exact ih _ (p :: visited) _ _ out h
            (procItems_caps env repo p d maxDepth items r hc)

/-- C6 (amended): every completed online scan respects all content
budgets — at most 5 key documents, at most 5 entry files, at most 10
core-code files, and at most one stored content per distinct dependency
filename (the dependency keys are duplicate-free).  The tree-entry list has
no such cap (see `scanner_tree_uncapped`). -/
theorem scanner_budget_caps :
    ∀ (env : ScanEnv) (url : String) (st : ScanResults),
      online_repo_scanner env url = Except.ok (some st) →
      st.key_docs.length ≤ 5 ∧ st.entry_files.length ≤ 5 ∧
        st.core_code.length ≤ 10 ∧ (st.dependencies.map Prod.fst).Nodup := by
  intro env url st h
  unfold online_repo_scanner at h
  split at h
  · simp at h
  · simp only [Except.ok.injEq] at h
    rw [Option.map_eq_some'] at h
    obtain ⟨pr, hpr, hfst⟩ := h
    have hcaps := scanLoop_caps env _ 2 (scanFuel env.dirs) [("", 0)] [] [] {} pr hpr
      (by refine ⟨?_, ?_, ?_, ?_⟩ <;> simp)
    rw [hfst] at hcaps
    exact hcaps

theorem scanner_budget_caps_instance :
    stC9.key_docs.length ≤ 5 ∧ stC9.entry_files.length ≤ 5 ∧
      stC9.core_code.length ≤ 10 ∧ (stC9.dependencies.map Prod.fst).Nodup :=
  scanner_budget_caps envC9 "https://github.com/alice/demo" stC9 rfl

/-! ## Termination and traversal bounds of the online scanner -/

lemma lookupA_mem : ∀ (dirs : Dirs) (p : String) (items : List Item),
    lookupA dirs p = some items → (p, items) ∈ dirs := by
  intro dirs
  induction dirs with
  | nil => intro p items h; simp [lookupA] at h
  | cons pr rest ih =>
    intro p items h
    obtain ⟨k, v⟩ := pr
    by_cases hk : k = p
    · simp only [lookupA, if_pos hk, Option.some.injEq] at h
      subst hk; subst h
      exact List.mem_cons_self _ _
    · simp only [lookupA, if_neg hk] at h
      exact List.mem_cons_of_mem _ (ih p items h)

lemma mem_allPaths_of_item {dirs : Dirs} {p : String} {items : List Item} {it : Item}
    (hd : (p, items) ∈ dirs) (hit : it ∈ items) :
    relPathOf p it.name ∈ allPaths dirs := by
  unfold allPaths
  refine List.mem_cons_of_mem _ ?_
  rw [List.mem_flatMap]
  exact ⟨(p, items), hd, List.mem_map_of_mem _ hit⟩

lemma totalItems_bound {dirs : Dirs} {p : String} {items : List Item}
    (hd : (p, items) ∈ dirs) : items.length ≤ totalItems dirs :=
  List.single_le_sum (fun _ _ => Nat.zero_le _) _
    (List.mem_map_of_mem (fun pr => pr.2.length) hd)

lemma scanStepEnq_eq_some {repo rel : String} {d maxD : Nat} {it : Item}
    {x : String × Nat} (h : scanStepEnq repo rel d maxD it = some x) :
    x = (rel, d + 1) ∧ d < maxD := by
  unfold scanStepEnq at h
  split at h
  · rename_i hcond
    simp only [Bool.and_eq_true, decide_eq_true_eq] at hcond
    cases h
    exact ⟨rfl, hcond.1.2⟩
  · simp at h

lemma procItem_snd (env : ScanEnv) (repo cur : String) (depth maxDepth : Nat)
    (it : Item) (r : ScanResults) :
    (procItem env repo cur depth maxDepth it r).2 =
      scanStepEnq repo (relPathOf cur it.name) depth maxDepth it := rfl

lemma procItems_enq_spec (env : ScanEnv) (repo cur : String) (d maxD : Nat) :
    ∀ (items : List Item) (r : ScanResults),
      ((procItems env repo cur d maxD items r).2).length ≤ items.length ∧
      ∀ x ∈ (procItems env repo cur d maxD items r).2,
        (∃ it ∈ items, x.1 = relPathOf cur it.name) ∧ x.2 = d + 1 ∧ d < maxD := by
  intro items
  induction items with
  | nil => intro r; exact ⟨Nat.le_refl 0, by simp [procItems]⟩
  | cons it rest ih =>
    intro r
    obtain ⟨ihlen, ihmem⟩ := ih (procItem env repo cur d maxD it r).1
    constructor
    · simp only [procItems]
      cases he : (procItem env repo cur d maxD it r).2 with
      | none => simpa [he] using Nat.le_succ_of_le ihlen
      | some x => simpa [he] using ihlen
    · intro x hx
      simp only [procItems] at hx
      rw [List.mem_append] at hx
      rcases hx with hx | hx
      · cases he : (procItem env repo cur d maxD it r).2 with
        | none => rw [he] at hx; simp at hx
        | some y =>
          rw [he] at hx
          simp only [Option.toList_some, List.mem_singleton] at hx
          subst hx
          rw [procItem_snd] at he
          obtain ⟨hy, hd⟩ := scanStepEnq_eq_some he
          subst hy
          exact ⟨⟨it, List.mem_cons_self _ _, rfl⟩, rfl, hd⟩
      · obtain ⟨⟨it', hit', h1⟩, h2, h3⟩ := ihmem x hx
        exact ⟨⟨it', List.mem_cons_of_mem _ hit', h1⟩, h2, h3⟩

lemma unvisited_decrease (dirs : Dirs) (v : List String) (p : String)
    (hp : p ∈ allPaths dirs) (hv : v.contains p = false) :
    unvisitedCount dirs (p :: v) + 1 ≤ unvisitedCount dirs v := by
  unfold unvisitedCount
  have hcong : (allPaths dirs).filter (fun x => !(p :: v).contains x) =
      ((allPaths dirs).filter (fun x => !v.contains x)).filter (fun x => !(x == p)) := by
    rw [List.filter_filter]
    refine List.filter_congr ?_
    intro x _
    simp only [List.contains_cons, Bool.not_or]
  rw [hcong]
  have hmem : p ∈ (allPaths dirs).filter (fun x => !v.contains x) :=
    List.mem_filter.mpr ⟨hp, by simpa using hv⟩
  have := (List.length_filter_lt_length_iff_exists
    (l := (allPaths dirs).filter (fun x => !v.contains x))
    (p := fun x => !(x == p))).mpr ⟨p, hmem, by simp⟩
  omega

lemma scanLoop_isSome (env : ScanEnv) (repo : String) (maxD : Nat) :
    ∀ (fuel : Nat) (q : List (String × Nat)) (visited : List String)
      (enqLog : List (String × Nat)) (r : ScanResults),
      (∀ pd ∈ q, pd.1 ∈ allPaths env.dirs) →
      unvisitedCount env.dirs visited * (1 + totalItems env.dirs) + q.length ≤ fuel →
      (scanLoop env repo maxD fuel q visited enqLog r).isSome = true := by
  intro fuel
  induction fuel with
  | zero =>
    intro q visited enqLog r hq hm
    cases q with
    | nil => simp [scanLoop]
    | cons hd tl => simp only [List.length_cons] at hm; omega
  | succ f ih =>
    intro q visited enqLog r hq hm
    cases q with
    | nil => simp [scanLoop]
    | cons hd tl =>
      obtain ⟨p, d⟩ := hd
      simp only [scanLoop]
      split
      · refine ih tl visited enqLog r (fun pd hpd => hq pd (List.mem_cons_of_mem _ hpd)) ?_
        simp only [List.length_cons] at hm
        omega
      · rename_i hcond
        have hp : p ∈ allPaths env.dirs := hq (p, d) (List.mem_cons_self _ _)
        have hvp : visited.contains p = false := by
          cases hcp : visited.contains p
          · rfl
          · exact absurd (by rw [hcp]; simp) hcond
        have hU := unvisited_decrease env.dirs visited p hp hvp
        have hK : unvisitedCount env.dirs (p :: visited) * (1 + totalItems env.dirs) +
            (1 + totalItems env.dirs) ≤
            unvisitedCount env.dirs visited * (1 + totalItems env.dirs) := by
          calc unvisitedCount env.dirs (p :: visited) * (1 + totalItems env.dirs) +
                (1 + totalItems env.dirs)
              = (unvisitedCount env.dirs (p :: visited) + 1) * (1 + totalItems env.dirs) := by
                ring
            _ ≤ unvisitedCount env.dirs visited * (1 + totalItems env.dirs) :=
                Nat.mul_le_mul_right _ hU
        cases hl : lookupA env.dirs p with
        | none =>
          simp only [hl]
          refine ih tl (p :: visited) enqLog r
            (fun pd hpd => hq pd (List.mem_cons_of_mem _ hpd)) ?_
          simp only [List.length_cons] at hm
          omega
        | some items =>
          simp only [hl]
          obtain ⟨hlen, hmem⟩ := procItems_enq_spec env repo p d maxD items r
          have hT : items.length ≤ totalItems env.dirs :=
            totalItems_bound (lookupA_mem env.dirs p items hl)
          refine ih (tl ++ (procItems env repo p d maxD items r).2) (p :: visited)
            (enqLog ++ (procItems env repo p d maxD items r).2)
            (procItems env repo p d maxD items r).1 ?_ ?_
          · intro pd hpd
            rw [List.mem_append] at hpd
            rcases hpd with hpd | hpd
            · exact hq pd (List.mem_cons_of_mem _ hpd)
            · obtain ⟨⟨it, hit, h1⟩, _, _⟩ := hmem pd hpd
              rw [h1]
              exact mem_allPaths_of_item (lookupA_mem env.dirs p items hl) hit
          · rw [List.length_append]
            simp only [List.length_cons] at hm
            omega

lemma scanLoop_invariants (env : ScanEnv) (repo : String) (maxD : Nat) :
    ∀ (fuel : Nat) (q : List (String × Nat)) (visited : List String)
      (enqLog : List (String × Nat)) (r : ScanResults)
      (out : ScanResults × List String × List (String × Nat)),
      scanLoop env repo maxD fuel q visited enqLog r = some out →
      (∀ pd ∈ q, pd.1 ∈ allPaths env.dirs) →
      visited.Nodup → (∀ x ∈ visited, x ∈ allPaths env.dirs) →
      (∀ pd ∈ enqLog, pd.2 ≤ maxD) →
      out.2.1.Nodup ∧ (∀ x ∈ out.2.1, x ∈ allPaths env.dirs) ∧
        (∀ pd ∈ out.2.2, pd.2 ≤ maxD) := by
  intro fuel
  induction fuel with
  | zero =>
    intro q visited enqLog r out h hq hnd hvs he
    cases q with
    | nil =>
      simp only [scanLoop, Option.some.injEq] at h
      rw [← h]
      exact ⟨hnd, hvs, he⟩
    | cons hd tl => simp [scanLoop] at h
  | succ f ih =>
    intro q visited enqLog r out h hq hnd hvs he
    cases q with
    | nil =>
      simp only [scanLoop, Option.some.injEq] at h
      rw [← h]
      exact ⟨hnd, hvs, he⟩
    | cons hd tl =>
      obtain ⟨p, d⟩ := hd
      simp only [scanLoop] at h
      split at h
      · exact ih tl visited enqLog r out h
          (fun pd hpd => hq pd (List.mem_cons_of_mem _ hpd)) hnd hvs he
      · rename_i hcond
        have hp : p ∈ allPaths env.dirs := hq (p, d) (List.mem_cons_self _ _)
        have hvp : visited.contains p = false := by
          cases hcp : visited.contains p
          · rfl
          · exact absurd (by rw [hcp]; simp) hcond
        have hpnotin : p ∉ visited := by simpa using hvp
        have hnd' : (p :: visited).Nodup := List.nodup_cons.mpr ⟨hpnotin, hnd⟩
        have hvs' : ∀ x ∈ p :: visited, x ∈ allPaths env.dirs := by
          intro x hx
          rcases List.mem_cons.mp hx with rfl | hx
          · exact hp
          · exact hvs x hx
        cases hl : lookupA env.dirs p with
        | none =>
          simp only [hl] at h
          exact ih tl (p :: visited) enqLog r out h
            (fun pd hpd => hq pd (List.mem_cons_of_mem _ hpd)) hnd' hvs' he
        | some items =>
          simp only [hl] at h
          obtain ⟨hlen, hmem⟩ := procItems_enq_spec env repo p d maxD items r
          refine ih _ (p :: visited) _ _ out h ?_ hnd' hvs' ?_
          · intro pd hpd
            rw [List.mem_append] at hpd
            rcases hpd with hpd | hpd
            · exact hq pd (List.mem_cons_of_mem _ hpd)
            · obtain ⟨⟨it, hit, h1⟩, _, _⟩ := hmem pd hpd
              rw [h1]
              exact mem_allPaths_of_item (lookupA_mem env.dirs p items hl) hit
          · intro pd hpd
            rw [List.mem_append] at hpd
            rcases hpd with hpd | hpd
            · exact he pd hpd
            · obtain ⟨_, h2, h3⟩ := hmem pd hpd
              omega

/-- C7: for every depth bound, the scanner's walk completes within its fuel
(termination), it never appends a pair of depth exceeding the bound to the
work queue, the fetched-path set (`scanned_paths`, which records each path
immediately before its single listing fetch) is duplicate-free, and the
number of visited paths is bounded by the number of distinct paths the
remote tree can mention. -/
theorem scanner_termination_bounds :
    ∀ (maxDepth : Nat) (env : ScanEnv) (repo : String),
      ∃ out, onlineRepoScannerD maxDepth env repo = some out ∧
        (∀ pd ∈ out.2.2, pd.2 ≤ maxDepth) ∧
        out.2.1.Nodup ∧
        out.2.1.length ≤ ((allPaths env.dirs).dedup).length := by
  intro maxDepth env repo
  have hsome : (onlineRepoScannerD maxDepth env repo).isSome = true := by
    refine scanLoop_isSome env repo maxDepth (scanFuel env.dirs) [("", 0)] [] []
      {} ?_ ?_
    · intro pd hpd
      rcases List.mem_singleton.mp hpd with rfl
      exact List.mem_cons_self _ _
    · unfold scanFuel
      have h1 : unvisitedCount env.dirs [] ≤ (allPaths env.dirs).length :=
        List.length_filter_le _ _
      have h2 : unvisitedCount env.dirs [] * (1 + totalItems env.dirs) ≤
          (allPaths env.dirs).length * (1 + totalItems env.dirs) :=
        Nat.mul_le_mul_right _ h1
      simpa using h2
  rw [Option.isSome_iff_exists] at hsome
  obtain ⟨out, hout⟩ := hsome
  obtain ⟨hnd, hsub, hdep⟩ := scanLoop_invariants env repo maxDepth
    (scanFuel env.dirs) [("", 0)] [] [] {} out hout
    (by intro pd hpd; rcases List.mem_singleton.mp hpd with rfl
        exact List.mem_cons_self _ _)
    List.nodup_nil (by simp) (by simp)
  refine ⟨out, hout, hdep, hnd, ?_⟩
  have hcard : out.2.1.toFinset.card = out.2.1.length :=
    List.toFinset_card_of_nodup hnd
  have hsubF : out.2.1.toFinset ⊆ (allPaths env.dirs).toFinset := by
    intro x hx
    rw [List.mem_toFinset] at hx ⊢
    exact hsub x hx
  have hle := Finset.card_le_card hsubF
  rw [hcard, List.card_toFinset] at hle
  exact hle

/-! ## Properties of the orchestrator -/

lemma check_safety_low_stars (url : String) (cfg : ForgeConfig)
    (resp : String → ApiReply RepoMeta) (m : RepoMeta) (b : String)
    (hlen : (safetyUrlParts url).length ≥ 2)
    (hreq : (make_api_request (safety_api_path url) cfg resp).2 = Except.ok (m, b))
    (hstars : m.stargazers_count < cfg.min_stars) :
    (check_repository_safety url cfg resp).1 = false := by
  simp only [check_repository_safety]
  rw [if_neg (by omega), hreq]
  simp only [if_pos hstars]

/-- C1 (amended): with the safety check enabled, the metadata fetch
succeeding with a star count below the threshold, and no force override,
`process_single_repository` returns failure; its only filesystem effects
are the three directory creations of `create_skill_structure`, performed
before the gate, and no file is written. -/
theorem safety_gate_rejection_events :
    ∀ (url : String) (skillName : Option String) (cfg : ForgeConfig)
      (baseOutputDir : String) (env : OrchEnv) (m : RepoMeta) (b : String),
      validate_url url = true →
      cfg.no_safety_check = false →
      cfg.force = false →
      (safetyUrlParts url).length ≥ 2 →
      (make_api_request (safety_api_path url) cfg env.apiResp).2 = Except.ok (m, b) →
      m.stargazers_count < cfg.min_stars →
      process_single_repository url skillName cfg baseOutputDir env =
        (false, create_skill_structure_events
          (baseOutputDir ++ "/" ++ skill_name_of url skillName)) ∧
      ∀ e ∈ (process_single_repository url skillName cfg baseOutputDir env).2,
        e.isWrite = false := by
  intro url skillName cfg baseOutputDir env m b h1 h2 h3 hlen hreq hstars
  have hc := check_safety_low_stars url cfg env.apiResp m b hlen hreq hstars
  have hmain : process_single_repository url skillName cfg baseOutputDir env =
      (false, create_skill_structure_events
        (baseOutputDir ++ "/" ++ skill_name_of url skillName)) := by
    simp only [process_single_repository, h1, h2, h3, hc, Bool.not_true,
      Bool.false_or, Bool.or_self, Bool.not_false, if_false, if_true,
      Bool.false_eq_true, ite_false, ite_true]
  refine ⟨hmain, ?_⟩
  rw [hmain]
  intro e he
  simp only [create_skill_structure_events, List.mem_cons, List.not_mem_nil,
    or_false] at he
  rcases he with rfl | rfl | rfl <;> rfl

theorem safety_gate_rejection_events_instance :
    process_single_repository "https://github.com/foo/bar" none forgeConfigDefault
        "skills" envLowStars =
      (false, create_skill_structure_events
        ("skills" ++ "/" ++ skill_name_of "https://github.com/foo/bar" none)) :=
  (safety_gate_rejection_events "https://github.com/foo/bar" none forgeConfigDefault
    "skills" envLowStars metaLow "https://api.github.com"
    (by decide) rfl rfl (by decide) rfl (by decide)).1

lemma cloneAttempts_fail_props (urls : List String) (target : String)
    (ok : Nat → String → Bool) (h : ∀ a u, ok a u = false) :
    ∀ attempts, (cloneAttempts urls target ok attempts).1 = false ∧
      ((cloneAttempts urls target ok attempts).2.filter Event.isWrite) = [] := by
  intro attempts
  induction attempts with
  | nil => exact ⟨rfl, rfl⟩
  | cons a rest ih =>
    have hr := cloneRound_fail ok a target urls (fun u _ => h a u)
    cases rest with
    | nil => simp [cloneAttempts, hr, filter_isWrite_map_clone]
    | cons a2 rest2 =>
      rcases hca : cloneAttempts urls target ok (a2 :: rest2) with ⟨b2, evs2⟩
      rw [hca] at ih
      have ihb : b2 = false := ih.1
      have ihe : evs2.filter Event.isWrite = [] := ih.2
      subst ihb
      simp [cloneAttempts, hr, hca, filter_isWrite_map_clone, List.filter_append,
        List.filter_cons, Event.isWrite, ihe]

/-- The exists-and-no-force branch of `clone_repository`: immediate failure
with no subprocess and no filesystem change. -/
lemma clone_repository_exists_noforce (url target : String) (cfg : ForgeConfig)
    (fs : List String) (ok : Nat → String → Bool)
    (hmem : fs.contains target = true) (hforce : cfg.force = false) :
    clone_repository url target cfg fs ok = (false, fs, []) := by
  unfold clone_repository
  rw [if_pos hmem]
  simp [hforce]

lemma clone_repository_fail_props (url target : String) (cfg : ForgeConfig)
    (fs : List String) (ok : Nat → String → Bool)
    (hmem : fs.contains target = true) (hfail : ∀ a u, ok a u = false) :
    (clone_repository url target cfg fs ok).1 = false ∧
    ((clone_repository url target cfg fs ok).2.2.filter Event.isWrite) = [] := by
  obtain ⟨ha, hb⟩ := cloneAttempts_fail_props (clone_candidate_urls url cfg)
    target ok hfail (List.range cfg.max_retries)
  by_cases hforce : cfg.force
  · unfold clone_repository
    rw [if_pos hmem]
    simp [hforce, ha, hb, List.filter_cons, Event.isWrite]
  · have heq := clone_repository_exists_noforce url target cfg fs ok hmem
      (by simpa using hforce)
    constructor
    · rw [heq]
    · rw [heq]
      rfl

lemma orch_fallback_fail_props (url : String) (cfg : ForgeConfig)
    (target srcDir baseOutputDir : String) (env : OrchEnv) (fs : List String)
    (ev : List Event) (hmem : fs.contains srcDir = true)
    (hfail : ∀ a u, env.cloneOk a u = false) :
    (orch_fallback url cfg target srcDir baseOutputDir env fs ev).1 = false ∧
    ((orch_fallback url cfg target srcDir baseOutputDir env fs ev).2.filter
      Event.isWrite) = ev.filter Event.isWrite := by
  obtain ⟨ha, hb⟩ := clone_repository_fail_props url srcDir cfg
    (srcDir :: fsRemoveTree fs srcDir) env.cloneOk (by simp) hfail
  rcases hcl : clone_repository url srcDir cfg (srcDir :: fsRemoveTree fs srcDir)
      env.cloneOk with ⟨bres, fs2, cev⟩
  rw [hcl] at ha hb
  have ha' : bres = false := ha
  have hb' : cev.filter Event.isWrite = [] := hb
  subst ha'
  unfold orch_fallback
  simp only [hmem, ite_true, if_true, hcl]
  refine ⟨by simp, ?_⟩
  simp [List.filter_append, List.filter_cons, Event.isWrite, hb']

lemma process_reaches_fallback (url : String) (skillName : Option String)
    (cfg : ForgeConfig) (baseOutputDir : String) (env : OrchEnv) (st : ScanResults)
    (h1 : validate_url url = true) (h2 : cfg.no_safety_check = true)
    (h3 : cfg.dry_run = false)
    (hscan : online_repo_scanner env.scan url = Except.ok (some st))
    (hst : st.tree = []) :
    process_single_repository url skillName cfg baseOutputDir env =
      orch_fallback url cfg (baseOutputDir ++ "/" ++ skill_name_of url skillName)
        (baseOutputDir ++ "/" ++ skill_name_of url skillName ++ "/src")
        baseOutputDir env
        ((baseOutputDir ++ "/" ++ skill_name_of url skillName ++ "/src") ::
          (baseOutputDir ++ "/" ++ skill_name_of url skillName ++ "/scripts") ::
          (baseOutputDir ++ "/" ++ skill_name_of url skillName) :: env.fs0)
        (create_skill_structure_events
          (baseOutputDir ++ "/" ++ skill_name_of url skillName)) := by
  simp only [process_single_repository, h1, h2, h3, hscan, hst, Bool.not_true,
    Bool.not_false, Bool.false_eq_true, Bool.true_eq_false, if_true, if_false,
    List.isEmpty_nil, ite_true, ite_false]

/-- C2: when the online scan completes with an empty tree and every clone
attempt fails, `process_single_repository` runs the clone fallback, returns
failure (exit code 1 in single-URL mode), and writes no file at all — in
particular no context-bundle document reaches disk. -/
theorem empty_scan_clone_fail_no_bundle :
    ∀ (url : String) (skillName : Option String) (cfg : ForgeConfig)
      (baseOutputDir : String) (env : OrchEnv) (st : ScanResults),
      validate_url url = true →
      cfg.no_safety_check = true →
      cfg.dry_run = false →
      online_repo_scanner env.scan url = Except.ok (some st) →
      st.tree = [] →
      (∀ a u, env.cloneOk a u = false) →
      (process_single_repository url skillName cfg baseOutputDir env).1 = false ∧
      ((process_single_repository url skillName cfg baseOutputDir env).2.filter
        Event.isWrite) = [] ∧
      single_repo_exit_code url skillName cfg baseOutputDir env = 1 := by
  intro url skillName cfg baseOutputDir env st h1 h2 h3 hscan hst hfail
  have hred := process_reaches_fallback url skillName cfg baseOutputDir env st
    h1 h2 h3 hscan hst
  obtain ⟨ha, hb⟩ := orch_fallback_fail_props url cfg
    (baseOutputDir ++ "/" ++ skill_name_of url skillName)
    (baseOutputDir ++ "/" ++ skill_name_of url skillName ++ "/src")
    baseOutputDir env
    ((baseOutputDir ++ "/" ++ skill_name_of url skillName ++ "/src") ::
      (baseOutputDir ++ "/" ++ skill_name_of url skillName ++ "/scripts") ::
      (baseOutputDir ++ "/" ++ skill_name_of url skillName) :: env.fs0)
    (create_skill_structure_events
      (baseOutputDir ++ "/" ++ skill_name_of url skillName))
    (by simp) hfail
  rw [hred]
  refine ⟨ha, ?_, ?_⟩
  · rw [hb]; rfl
  · unfold single_repo_exit_code
    rw [hred, ha]
    rfl

theorem empty_scan_clone_fail_no_bundle_instance :
    (process_single_repository "https://github.com/foo/bar" none
        { no_safety_check := true } "skills" envLowStars).1 = false ∧
    ((process_single_repository "https://github.com/foo/bar" none
        { no_safety_check := true } "skills" envLowStars).2.filter
      Event.isWrite) = [] ∧
    single_repo_exit_code "https://github.com/foo/bar" none
        { no_safety_check := true } "skills" envLowStars = 1 :=
  empty_scan_clone_fail_no_bundle "https://github.com/foo/bar" none
    { no_safety_check := true } "skills" envLowStars {}
    (by decide) rfl rfl rfl rfl (fun _ _ => rfl)

lemma orch_fallback_noforce_events (url : String) (cfg : ForgeConfig)
    (target srcDir baseOutputDir : String) (env : OrchEnv) (fs : List String)
    (ev : List Event) (hforce : cfg.force = false)
    (hmem : fs.contains srcDir = true) :
    orch_fallback url cfg target srcDir baseOutputDir env fs ev =
      (false, (ev ++ [Event.rmtree srcDir]) ++ [Event.mkdirP srcDir]) := by
  have heq := clone_repository_exists_noforce url srcDir cfg
    (srcDir :: fsRemoveTree fs srcDir) env.cloneOk (by simp) hforce
  unfold orch_fallback
  simp only [hmem, ite_true, if_true, heq, List.append_nil]

/-- C3: (a) every call to `clone_repository` whose target directory already
exists, with the force flag unset, returns `False` without invoking any
clone subprocess and without modifying the filesystem; (b) since
`process_single_repository` creates the `src` directory immediately before
calling `clone_repository`, a fallback run without force takes exactly this
branch: it ends in failure with no clone-subprocess event at all. -/
theorem clone_existing_dir_short_circuit :
    (∀ (url target : String) (cfg : ForgeConfig) (fs : List String)
       (ok : Nat → String → Bool),
       fs.contains target = true → cfg.force = false →
       clone_repository url target cfg fs ok = (false, fs, [])) ∧
    (∀ (url : String) (skillName : Option String) (cfg : ForgeConfig)
       (baseOutputDir : String) (env : OrchEnv) (st : ScanResults),
       validate_url url = true →
       cfg.no_safety_check = true →
       cfg.dry_run = false →
       cfg.force = false →
       online_repo_scanner env.scan url = Except.ok (some st) →
       st.tree = [] →
       (process_single_repository url skillName cfg baseOutputDir env).1 = false ∧
       ((process_single_repository url skillName cfg baseOutputDir env).2.filter
         Event.isClone) = []) := by
  constructor
  · intro url target cfg fs ok hmem hforce
    exact clone_repository_exists_noforce url target cfg fs ok hmem hforce
  · intro url skillName cfg baseOutputDir env st h1 h2 h3 hforce hscan hst
    rw [process_reaches_fallback url skillName cfg baseOutputDir env st h1 h2 h3
      hscan hst]
    rw [orch_fallback_noforce_events url cfg
      (baseOutputDir ++ "/" ++ skill_name_of url skillName)
      (baseOutputDir ++ "/" ++ skill_name_of url skillName ++ "/src")
      baseOutputDir env _ _ hforce (by simp)]
    exact ⟨rfl, rfl⟩

theorem clone_existing_dir_short_circuit_instance :
    clone_repository "https://github.com/foo/bar" "skills/bar-skill/src"
        forgeConfigDefault ["skills/bar-skill/src"] (fun _ _ => false) =
      (false, ["skills/bar-skill/src"], []) ∧
    ((process_single_repository "https://github.com/foo/bar" none
        { no_safety_check := true } "skills" envLowStars).2.filter
      Event.isClone) = [] :=
  ⟨clone_existing_dir_short_circuit.1 "https://github.com/foo/bar"
      "skills/bar-skill/src" forgeConfigDefault ["skills/bar-skill/src"]
      (fun _ _ => false) (by decide) rfl,
   (clone_existing_dir_short_circuit.2 "https://github.com/foo/bar" none
      { no_safety_check := true } "skills" envLowStars {}
      (by decide) rfl rfl rfl rfl rfl).2⟩
